import Mathlib

/-!
# Verification of the basin_matching assignment engine

Shallow embedding of the gauge-assignment pipeline of the `basin_matching`
repository (packages `rbc` and `saber`) and proofs about its behaviour.

A table is a list of rows.  Reads in the Python source go through
`DataFrame.values[0]` (first matching row); writes go through
`df.loc[df[col] == id, ...] = ...` (all matching rows).  The embedding keeps
both behaviours: reads are `rowById` (head of the filtered list), writes are
`updRows` (map over all matching rows).

Machine reals for the coordinates are modelled as integers and the
nearest-neighbour comparison is done on exact squared Euclidean distances
(`sqrt` is strictly monotone, so the argmin is unchanged).
-/

/-- One row of the assign table.  Column names follow `saber/assign.py`
(`model_id`, `downstream_id`, `stream_order`, `x`, `y`, `gauge_id`,
`sim-fdc-cluster`, `assigned_model_id`, `assigned_gauge_id`, `reason`).
The `rbc` package uses a single `assigned_id` column; it is embedded as
`assigned_model_id` here.  Nullable columns are `Option`. -/
structure Row where
  model_id : Int
  downstream_id : Int
  stream_order : Int
  x : Int
  y : Int
  gauge_id : Option Int
  fdc_cluster : Option Int
  assigned_model_id : Option Int
  assigned_gauge_id : Option Int
  reason : Option String
deriving Repr, DecidableEq

abbrev Table := List Row

/-- Errors a pipeline stage can raise: `indexError` models a Python
`IndexError` from `.values[0]` on an empty selection, `typeError` the
`TypeError` from `'propagation' in nan`, `valueError` the `ValueError` from
`int()` on a non-numeric string, and `outOfFuel` marks that the recursion
fuel ran out (the Python loop would still be running). -/
inductive Err where
  | indexError
  | outOfFuel
  | typeError
  | valueError
deriving Repr, DecidableEq

/-- First row of the table carrying the given `model_id`
(`df[df[model_id_col] == id]` followed by `.values[0]`). -/
def rowById (t : Table) (id : Int) : Option Row :=
  (t.filter (fun r => r.model_id = id)).head?

/-- Write to every row carrying the given `model_id`
(`df.loc[df[model_id_col] == id, ...] = ...`). -/
def updRows (id : Int) (u : Row → Row) (t : Table) : Table :=
  t.map (fun r => if r.model_id = id then u r else r)

/-- The list of `model_id`s of a table. -/
def mids (t : Table) : List Int := t.map (fun r => r.model_id)

/-- Forget the three assignment columns; used to state frame conditions. -/
def strip (r : Row) : Row :=
  { r with assigned_model_id := none, assigned_gauge_id := none, reason := none }

/-- Two tables agree on everything except the three assignment columns. -/
def sameFrame (t t2 : Table) : Prop := t2.map strip = t.map strip

/-- Insert into a weakly ascending list of integers. -/
def insertSorted (x : Int) : List Int → List Int
  | [] => [x]
  | y :: ys => if x ≤ y then x :: y :: ys else y :: insertSorted x ys

/-- Insertion sort, ascending. -/
def insSort : List Int → List Int
  | [] => []
  | x :: xs => insertSorted x (insSort xs)

/-- Model of Python `tuple(set(xs))` for the small non-negative integer ids
used by this code base, and of `sorted(set(xs))`: duplicates dropped, result
in ascending order.  (CPython iterates a set of small ints in hash-table slot
order, which for the ids appearing here is ascending numeric order.) -/
def sortDedup (l : List Int) : List Int := insSort l.dedup

/-- Rows directly upstream of `id`: `df[df[downstream_id_col] == id]`. -/
def upstreamRows (t : Table) (id : Int) : List Row :=
  t.filter (fun r => r.downstream_id = id)

/-- The `same_order` restriction of both walks
(`src/rbc/_propagation.py:27-28,55-56`): keep only rows whose `stream_order`
equals the order of the first row matching `start`; `.values[0]` on an absent
`start` raises (`indexError`). -/
def sameOrderView (df : Table) (start : Int) : Except Err Table :=
  match rowById df start with
  | none => .error .indexError
  | some r0 => .ok (df.filter (fun r => r.stream_order = r0.stream_order))

/-- Loop of `walk_downstream` (`src/rbc/_propagation.py:30-36`): while the
current row exists and its `downstream_id` is not the outlet sentinel, append
the `downstream_id` and move to its row; a missing next row ends the walk
after the append.  Fuel-indexed because the source loop has no cycle guard. -/
def walkDownLoop : Nat → Table → Option Row → Int → Except Err (List Int)
  | 0, _, _, _ => .error .outOfFuel
  | _ + 1, _, none, _ => .ok []
  | fuel + 1, tbl, some row, outlet =>
    if row.downstream_id = outlet then .ok []
    else
      match walkDownLoop fuel tbl (rowById tbl row.downstream_id) outlet with
      | .error e => .error e
      | .ok rest => .ok (row.downstream_id :: rest)

/-- `walk_downstream(df, start_id, same_order, outlet_next_id)`
(`src/rbc/_propagation.py:10-36`). -/
def walkDownstream (fuel : Nat) (df : Table) (start : Int) (sameOrder : Bool)
    (outlet : Int) : Except Err (List Int) :=
  if sameOrder then
    match sameOrderView df start with
    | .error e => .error e
    | .ok view => walkDownLoop fuel view (rowById view start) outlet
  else
    walkDownLoop fuel df (rowById df start) outlet

mutual

/-- Body of `walk_upstream` after the order filter
(`src/rbc/_propagation.py:58-70`): seed the id list with `start` and loop on
the rows whose `downstream_id` is the current id. -/
def walkUpAux : Nat → Table → Int → Except Err (List Int)
  | 0, _, _ => .error .outOfFuel
  | fuel + 1, view, start => walkUpLoop fuel view (upstreamRows view start) [start]

/-- The `while` loop of `walk_upstream` (`src/rbc/_propagation.py:62-69`):
one upstream row continues linearly; several (a confluence) run the `for`
loop over the branch heads and then continue from the rows upstream of the
last branch head. -/
def walkUpLoop : Nat → Table → List Row → List Int → Except Err (List Int)
  | 0, _, _, _ => .error .outOfFuel
  | _ + 1, _, [], acc => .ok acc
  | fuel + 1, view, [r], acc =>
    walkUpLoop fuel view (upstreamRows view r.model_id) (acc ++ [r.model_id])
  | fuel + 1, view, r1 :: r2 :: rs, acc =>
    match walkUpFor fuel view (r1 :: r2 :: rs) acc with
    | .error e => .error e
    | .ok (acc2, rows2) => walkUpLoop fuel view rows2 acc2

/-- The `for` loop of `walk_upstream` (`src/rbc/_propagation.py:67-69`):
recurse into each branch with `same_order=False` (the view is already
filtered), appending each branch's de-duplicated result, and leave
`upstream_rows` pointing upstream of the last branch head. -/
def walkUpFor : Nat → Table → List Row → List Int → Except Err (List Int × List Row)
  | 0, _, _, _ => .error .outOfFuel
  | _ + 1, _, [], acc => .ok (acc, [])
  | fuel + 1, view, r :: rest, acc =>
    match walkUpAux fuel view r.model_id with
    | .error e => .error e
    | .ok branch =>
      match rest with
      | [] => .ok (acc ++ sortDedup branch, upstreamRows view r.model_id)
      | _ :: _ => walkUpFor fuel view rest (acc ++ sortDedup branch)

end

/-- `walk_upstream(df, start_id, same_order)` (`src/rbc/_propagation.py:39-70`);
the final `tuple(set(upstream_ids))` is `sortDedup`. -/
def walkUpstream (fuel : Nat) (df : Table) (start : Int) (sameOrder : Bool) :
    Except Err (List Int) :=
  if sameOrder then
    match sameOrderView df start with
    | .error e => .error e
    | .ok view =>
      match walkUpAux fuel view start with
      | .error e => .error e
      | .ok ids => .ok (sortDedup ids)
  else
    match walkUpAux fuel df start with
    | .error e => .error e
    | .ok ids => .ok (sortDedup ids)

/-- Split a character list on a separator character (Python `str.split`),
structurally recursive so that the kernel can evaluate it. -/
def splitOnChar (c : Char) : List Char → List (List Char)
  | [] => [[]]
  | x :: xs =>
    match splitOnChar c xs with
    | [] => [[]]
    | g :: gs => if x = c then [] :: g :: gs else (x :: g) :: gs

/-- Does `pat` occur at the start of the list? -/
def charPrefix : List Char → List Char → Bool
  | [], _ => true
  | _ :: _, [] => false
  | p :: ps, x :: xs => p = x && charPrefix ps xs

/-- Does `pat` occur anywhere in the list? -/
def containsChars (pat : List Char) : List Char → Bool
  | [] => charPrefix pat []
  | x :: xs => charPrefix pat (x :: xs) || containsChars pat xs

/-- Python `pat in s` (substring test). -/
def containsSub (s pat : String) : Bool := containsChars pat.data s.data

/-- Python `int(ds)` for a non-empty all-digit string; `none` models the
`ValueError` on anything else. -/
def digitsToNat? (l : List Char) : Option Nat :=
  if l.isEmpty then none
  else
    l.foldl
      (fun acc c =>
        match acc with
        | none => none
        | some n => if c.isDigit then some (n * 10 + (c.toNat - 48)) else none)
      (some 0)

/-- Python `int(str(s).split('-')[-1])`; `none` models the `ValueError`. -/
def lastDashNat (s : String) : Option Nat :=
  digitsToNat? ((splitOnChar (Char.ofNat 45) s.data).getLastD [])

/-- One iteration of the loop of `propagate_in_table`
(`src/rbc/_propagation.py:87-108`) for the candidate at position `index`
(hop distance `index + 1`):
* distance beyond `max_prop`: skip;
* no matching row, or any matching row with null `assigned_id`: assign
  `gauged_stream` with reason `propagation-<direction>-<distance>`;
* otherwise inspect the first matching row's reason: a null reason raises
  (`TypeError` from `in`); a reason containing `propagation` whose final
  dash-separated field parses to `d_prev ≥ distance` is overwritten with
  reason `propagation-downstream-<distance>` (the direction is the literal
  string `downstream` in the source, `src/rbc/_propagation.py:107`). -/
def propagateStep (g : Int) (maxp : Nat) (dir : String) (df : Table)
    (index : Nat) (segId : Int) : Except Err Table :=
  let distance := index + 1
  if distance > maxp then .ok df
  else
    let mts := df.filter (fun r => r.model_id = segId)
    if mts.isEmpty || mts.any (fun r => r.assigned_model_id = none) then
      .ok (updRows segId (fun r =>
        { r with assigned_model_id := some g,
                 reason := some ("propagation-" ++ dir ++ "-" ++ toString distance) }) df)
    else
      match mts.head? with
      | none => .ok df
      | some row =>
        match row.reason with
        | none => .error .typeError
        | some rs =>
          if containsSub rs "propagation" then
            match lastDashNat rs with
            | none => .error .valueError
            | some dprev =>
              if dprev ≥ distance then
                .ok (updRows segId (fun r =>
                  { r with assigned_model_id := some g,
                           reason := some ("propagation-downstream-" ++ toString distance) }) df)
              else .ok df
          else .ok df

/-- The `for index, segment_id in enumerate(connected_segments)` loop of
`propagate_in_table` (`src/rbc/_propagation.py:87`). -/
def propagateLoop (g : Int) (maxp : Nat) (dir : String) :
    Nat → List Int → Table → Except Err Table
  | _, [], df => .ok df
  | index, segId :: rest, df =>
    match propagateStep g maxp dir df index segId with
    | .error e => .error e
    | .ok df2 => propagateLoop g maxp dir (index + 1) rest df2

/-- `propagate_in_table(df, gauged_stream, connected_segments, max_prop,
direction)` (`src/rbc/_propagation.py:73-109`). -/
def propagate_in_table (df : Table) (g : Int) (cs : List Int) (maxp : Nat)
    (dir : String) : Except Err Table :=
  propagateLoop g maxp dir 0 cs df

/-- `rbc.assign.gauged` (`src/rbc/assign.py:14-27`): rows with a non-null
`gauge_id` get `assigned_id := gauge_id`; then every row with a non-null
`assigned_id` gets reason `gauged`. -/
def gauged (df : Table) : Table :=
  let d1 := df.map (fun r =>
    if r.gauge_id ≠ none then { r with assigned_model_id := r.gauge_id } else r)
  d1.map (fun r =>
    if r.assigned_model_id ≠ none then { r with reason := some "gauged" } else r)

/-- Loop of `rbc.assign.propagation` (`src/rbc/assign.py:39-47`): for every
gauged stream (in table order), walk downstream then propagate with direction
`downstream`, walk upstream then propagate with direction `upstream`.  Both
walks run on the function's original `df` argument. -/
def propagationGo (fuel : Nat) (df : Table) (maxp : Nat) :
    List Int → Table → Except Err Table
  | [], acc => .ok acc
  | gs :: rest, acc =>
    match walkDownstream fuel df gs true (-1) with
    | .error e => .error e
    | .ok down =>
      match propagate_in_table acc gs down maxp "downstream" with
      | .error e => .error e
      | .ok acc1 =>
        match walkUpstream fuel df gs true with
        | .error e => .error e
        | .ok up =>
          match propagate_in_table acc1 gs up maxp "upstream" with
          | .error e => .error e
          | .ok acc2 => propagationGo fuel df maxp rest acc2

/-- `rbc.assign.propagation(df, max_prop)` (`src/rbc/assign.py:30-47`). -/
def propagation (fuel : Nat) (df : Table) (maxp : Nat) : Except Err Table :=
  propagationGo fuel df maxp ((df.filter (fun r => r.gauge_id ≠ none)).map (fun r => r.model_id)) df

/-- `saber.assign.assign_gauged` (`src/saber/assign.py:65-80`): rows with a
non-null `gauge_id` get `assigned_model_id := model_id`,
`assigned_gauge_id := gauge_id`, reason `gauged`. -/
def assign_gauged (df : Table) : Table :=
  df.map (fun r =>
    if r.gauge_id ≠ none then
      { r with assigned_model_id := some r.model_id,
               assigned_gauge_id := r.gauge_id,
               reason := some "gauged" }
    else r)

/-- Modelled from the spec: one candidate step of saber's
`propagate_in_table`.  The module `saber/_propagation.py` that
`src/saber/assign.py` imports it from is not under `src/`; this definition
follows spec section 4.2 (PropagationRule).  For the candidate at hop
distance `d ≤ max_prop`: unassigned segments receive
`(assigned_model_id = g, assigned_gauge_id = G,
reason = propagation-<direction>-<d>)`; a `gauged` segment is left
untouched; a segment with a `propagation-*-<d_prev>` reason with
`d_prev ≥ d` is overwritten.  The overwrite tags the direction of the
current pass, as in the spec's main rule text (the spec's design notes record
that the original code hardcodes `downstream` there; that original code is
`rbc`'s `propagateStep` above). -/
def saberPropagateStep (g : Int) (G : Option Int) (maxp : Nat) (dir : String)
    (t : Table) (index : Nat) (segId : Int) : Table :=
  let d := index + 1
  if d > maxp then t
  else
    match rowById t segId with
    | none => t
    | some row =>
      if row.assigned_model_id = none then
        updRows segId (fun r =>
          { r with assigned_model_id := some g, assigned_gauge_id := G,
                   reason := some ("propagation-" ++ dir ++ "-" ++ toString d) }) t
      else if row.reason = some "gauged" then t
      else
        match row.reason with
        | none => t
        | some rs =>
          if containsSub rs "propagation" then
            match lastDashNat rs with
            | none => t
            | some dprev =>
              if dprev ≥ d then
                updRows segId (fun r =>
                  { r with assigned_model_id := some g, assigned_gauge_id := G,
                           reason := some ("propagation-" ++ dir ++ "-" ++ toString d) }) t
              else t
          else t

/-- Modelled from the spec: the loop of saber's `propagate_in_table` over the
hop-ordered connected segments (see `saberPropagateStep`). -/
def saberPropagateLoop (g : Int) (G : Option Int) (maxp : Nat) (dir : String) :
    Nat → List Int → Table → Table
  | _, [], t => t
  | index, segId :: rest, t =>
    saberPropagateLoop g G maxp dir (index + 1) rest
      (saberPropagateStep g G maxp dir t index segId)

/-- Modelled from the spec: saber's `propagate_in_table(df, gauged_stream,
start_gid, connected_segments, max_prop, direction)` (the callee of
`src/saber/assign.py:93-96`, whose module is not under `src/`). -/
def saberPropagate (t : Table) (g : Int) (G : Option Int) (cs : List Int)
    (maxp : Nat) (dir : String) : Table :=
  saberPropagateLoop g G maxp dir 0 cs t

/-- Loop of `saber.assign.assign_propagation` (`src/saber/assign.py:87-96`):
for each gauged stream, read its gauge id from the current table (skip if the
selection is empty), walk upstream and propagate, then walk downstream and
propagate.  Both walks run on the original `df`. -/
def assignPropGo (fuel : Nat) (df : Table) (maxp : Nat) :
    List Int → Table → Except Err Table
  | [], acc => .ok acc
  | gs :: rest, acc =>
    match rowById acc gs with
    | none => assignPropGo fuel df maxp rest acc
    | some row =>
      match walkUpstream fuel df gs true with
      | .error e => .error e
      | .ok up =>
        match walkDownstream fuel df gs true (-1) with
        | .error e => .error e
        | .ok down =>
          assignPropGo fuel df maxp rest
            (saberPropagate (saberPropagate acc gs row.gauge_id up maxp "upstream")
              gs row.gauge_id down maxp "downstream")

/-- `saber.assign.assign_propagation(df, max_prop)` (`src/saber/assign.py:71-99`). -/
def assign_propagation (fuel : Nat) (df : Table) (maxp : Nat) : Except Err Table :=
  assignPropGo fuel df maxp ((df.filter (fun r => r.gauge_id ≠ none)).map (fun r => r.model_id)) df

/-- Squared planar Euclidean distance between two rows' coordinates.  The
source compares `sqrt(dx*dx + dy*dy)`; `sqrt` is strictly monotone, so the
minimiser is the same. -/
def sqDist (a b : Row) : Int := (a.x - b.x) ^ 2 + (a.y - b.y) ^ 2

/-- First element attaining the minimum of `f` (`Series.idxmin`: ties go to
the earliest index, i.e. original table order). -/
def argminFirst (f : Row → Int) : List Row → Option Row
  | [] => none
  | r :: rs =>
    match argminFirst f rs with
    | none => some r
    | some m => if f r ≤ f m then some r else some m

/-- Reason tag and assignment copy of the distance fallback
(`src/saber/assign.py:142-147`). -/
def distWrite (c : Int) (b : Row) (r : Row) : Row :=
  { r with assigned_model_id := b.assigned_model_id,
           assigned_gauge_id := b.assigned_gauge_id,
           reason := some ("cluster-" ++ toString c ++ "-dist") }

/-- Inner write of `assign_by_distance` for one unassigned id
(`src/saber/assign.py:131-147`): look the subject row up in the group slice,
take the available row at minimal distance, and write its assignment into
every row of the table carrying the subject's `model_id`. -/
def assignForId (c : Int) (c_so_sub avail : List Row) (df : Table) (id : Int) : Table :=
  match (c_so_sub.filter (fun r => r.model_id = id)).head? with
  | none => df
  | some subject =>
    match argminFirst (fun a => sqDist a subject) avail with
    | none => df
    | some best => updRows id (distWrite c best) df

/-- The `for id in ids_to_assign` loop of `assign_by_distance`
(`src/saber/assign.py:131`). -/
def assignForIds (c : Int) (c_so_sub avail : List Row) :
    List Int → Table → Table
  | [], df => df
  | id :: rest, df => assignForIds c c_so_sub avail rest (assignForId c c_so_sub avail df id)

/-- One `(cluster, stream_order)` group of `assign_by_distance`
(`src/saber/assign.py:101-130`): slice the cluster subset by order, split
into ids still needing assignment and available (already assigned) rows, and
skip the group when either side is empty. -/
def assignGroupSO (c so : Int) (c_sub : List Row) (df : Table) : Table :=
  let c_so_sub := c_sub.filter (fun r => r.stream_order = so)
  let ids_to_assign := (c_so_sub.filter (fun r => r.assigned_model_id = none)).map (fun r => r.model_id)
  let avail := c_so_sub.filter (fun r => r.assigned_model_id ≠ none)
  if ids_to_assign.isEmpty || avail.isEmpty then df
  else assignForIds c c_so_sub avail ids_to_assign df

/-- Sorted distinct stream orders of a row list (`sorted(set(c_sub['stream_order']))`). -/
def orderValues (rows : List Row) : List Int := sortDedup (rows.map (fun r => r.stream_order))

/-- Sorted distinct non-null cluster labels
(`sorted(set(_df['sim-fdc-cluster'].values))`).  A null (`NaN`) label also
appears in the Python set, but `NaN == NaN` is false, so its group slice is
always empty; dropping it here is equivalent. -/
def clusterValues (df : Table) : List Int := sortDedup (df.filterMap (fun r => r.fdc_cluster))

/-- The `for so_num in sorted(set(...))` loop over stream orders
(`src/saber/assign.py:99-100`); `c_sub` is the cluster slice taken once at
the start of the cluster iteration. -/
def soLoop (c : Int) (c_sub : List Row) : List Int → Table → Table
  | [], df => df
  | so :: rest, df => soLoop c c_sub rest (assignGroupSO c so c_sub df)

/-- The `for c_num in sorted(set(...))` loop over cluster labels
(`src/saber/assign.py:96-98`). -/
def clusterLoop : List Int → Table → Table
  | [], df => df
  | c :: rest, df =>
    clusterLoop rest (soLoop c (df.filter (fun r => r.fdc_cluster = some c)) (orderValues (df.filter (fun r => r.fdc_cluster = some c))) df)

/-- `saber.assign.assign_by_distance(df)` (`src/saber/assign.py:102-148`). -/
def assign_by_distance (df : Table) : Table := clusterLoop (clusterValues df) df

/-- Rows of the table available as nearest-neighbour candidates for the
`(cluster c, stream order so)` group: same cluster, same order, already
assigned.  This is `avail_assigns` of `src/saber/assign.py:129`. -/
def availOf (df : Table) (c so : Int) : List Row :=
  ((df.filter (fun r => r.fdc_cluster = some c)).filter (fun r => r.stream_order = so)).filter
    (fun r => r.assigned_model_id ≠ none)

/-- The `model_id`s a cluster slice can ever target for assignment: ids of
its rows with a null `assigned_model_id`. -/
def unassignedMids (rows : List Row) : List Int :=
  (rows.filter (fun r => r.assigned_model_id = none)).map (fun r => r.model_id)

/-- Closed form of the effect of `assign_by_distance` on one row (used by the
characterization theorem): a row that is unassigned, carries cluster `c`, and
whose group has an available candidate receives the minimum-distance
candidate's assignment; every other row is untouched. -/
def fallbackRow (df : Table) (r : Row) : Row :=
  match r.fdc_cluster with
  | none => r
  | some c =>
    if r.assigned_model_id = none then
      match argminFirst (fun a => sqDist a r) (availOf df c r.stream_order) with
      | none => r
      | some b => distWrite c b r
    else r

/-- The property claim C4 tracks: a gauged segment carries its own
`model_id` as `assigned_model_id`, its `gauge_id` as `assigned_gauge_id`,
and reason `gauged`. -/
def gaugedTriple (r : Row) : Prop :=
  r.gauge_id ≠ none →
    r.assigned_model_id = some r.model_id ∧ r.assigned_gauge_id = r.gauge_id
    ∧ r.reason = some "gauged"

/-- Convenience constructor: a network row with no gauge, no cluster label,
and empty assignment columns. -/
def mkRow (id down so : Int) : Row :=
  { model_id := id, downstream_id := down, stream_order := so, x := 0, y := 0,
    gauge_id := none, fdc_cluster := none,
    assigned_model_id := none, assigned_gauge_id := none, reason := none }

/-- Scenario A of the spec: linear chain 1→2→3→4→5, segment 5 drains to the
outlet sentinel −1, all of stream order 1, a gauge (id 100) at segment 3. -/
def chainA : Table :=
  [ mkRow 1 2 1, mkRow 2 3 1, { mkRow 3 4 1 with gauge_id := some 100 },
    mkRow 4 5 1, mkRow 5 (-1) 1 ]

/-- A two-segment cycle: 1 drains to 2 and 2 drains to 1, same stream order.
The spec requires this to be rejected as a precondition failure. -/
def cycleT : Table := [ mkRow 1 2 1, mkRow 2 1 1 ]

/-- Two rows of different stream order: 1 (order 1) drains to 2 (order 2). -/
def orderT : Table := [ mkRow 1 2 1, mkRow 2 (-1) 2 ]

/-- Chain 1→2 whose last row drains to the outlet sentinel. -/
def chainOutlet : Table := [ mkRow 1 2 1, mkRow 2 (-1) 1 ]

/-- The same chain 1→2, but the last row drains to id 99, which has no row. -/
def chainDangling : Table := [ mkRow 1 2 1, mkRow 2 99 1 ]

/-- A single row whose reason is already `gauged` but whose assigned id is
null (such a pair is never produced by the pipeline itself). -/
def gaugedNullT : Table := [ { mkRow 1 0 1 with reason := some "gauged" } ]

/-- A single row already assigned by an upstream propagation pass at hop
distance 1. -/
def overrideT : Table :=
  [ { mkRow 1 0 1 with
        assigned_model_id := some 9,
        reason := some "propagation-upstream-1" } ]

/-- Scenario C of the spec: segment 1 unassigned at (0,0); segments 2 and 3
already assigned, same cluster 1 and order 1, at (2,0) and (5,0). -/
def distT : Table :=
  [ { mkRow 1 (-1) 1 with fdc_cluster := some 1 },
    { mkRow 2 (-1) 1 with
        fdc_cluster := some 1, x := 2,
        assigned_model_id := some 2, assigned_gauge_id := some 20,
        reason := some "gauged" },
    { mkRow 3 (-1) 1 with
        fdc_cluster := some 1, x := 5,
        assigned_model_id := some 3, assigned_gauge_id := some 30,
        reason := some "gauged" } ]

/-- A row with a null cluster label next to the rows of `distT`. -/
def nullClusterT : Table := { mkRow 4 (-1) 1 with assigned_model_id := none } :: distT

/-- A three-segment chain with a gauge (id 7) at segment 2 and cluster
labels, used to exercise the saber pipeline end to end. -/
def saberT : Table :=
  [ { mkRow 1 2 1 with fdc_cluster := some 1 },
    { mkRow 2 3 1 with gauge_id := some 7, fdc_cluster := some 1, x := 1 },
    { mkRow 3 (-1) 1 with fdc_cluster := some 1, x := 2 } ]

/-! ## Generic lemmas about the table primitives -/

theorem strip_model_id (r : Row) : (strip r).model_id = r.model_id := rfl

theorem strip_gauge_id (r : Row) : (strip r).gauge_id = r.gauge_id := rfl

theorem strip_fdc (r : Row) : (strip r).fdc_cluster = r.fdc_cluster := rfl

theorem strip_order (r : Row) : (strip r).stream_order = r.stream_order := rfl

theorem length_updRows (id : Int) (u : Row → Row) (t : Table) :
    (updRows id u t).length = t.length := by
  simp [updRows]

theorem getElem?_updRows (id : Int) (u : Row → Row) (t : Table) (i : Nat) :
    (updRows id u t)[i]? = t[i]?.map (fun r => if r.model_id = id then u r else r) := by
  simp [updRows]

theorem map_strip_updRows (id : Int) (u : Row → Row) (t : Table)
    (h : ∀ r, strip (u r) = strip r) :
    (updRows id u t).map strip = t.map strip := by
  induction t with
  | nil => rfl
  | cons a ts ih =>
    simp only [updRows, List.map_cons] at ih ⊢
    by_cases ha : a.model_id = id <;> simp [ha, h, ih]

theorem mids_map (f : Row → Row) (t : Table) :
    mids (t.map f) = t.map (fun r => (f r).model_id) := by
  simp [mids]

theorem mids_updRows (id : Int) (u : Row → Row) (t : Table)
    (h : ∀ r, (u r).model_id = r.model_id) :
    mids (updRows id u t) = mids t := by
  simp only [updRows, mids_map, mids, List.map_map]
  apply List.map_congr_left
  intro a _
  by_cases ha : a.model_id = id <;> simp [ha, h]

theorem mids_eq_of_map_strip (t t2 : Table) (h : t2.map strip = t.map strip) :
    mids t2 = mids t := by
  have h2 : (t2.map strip).map (fun r => r.model_id) = (t.map strip).map (fun r => r.model_id) := by
    rw [h]
  simpa [mids, List.map_map, Function.comp] using h2

theorem rowById_mem (t : Table) (id : Int) (r : Row) (h : rowById t id = some r) :
    r ∈ t ∧ r.model_id = id := by
  unfold rowById at h
  have hm : r ∈ t.filter (fun q => q.model_id = id) := by
    cases hf : t.filter (fun q => q.model_id = id) with
    | nil => simp [hf] at h
    | cons a l => simp [hf] at h; simp [h, hf]
  have := List.mem_filter.mp hm
  exact ⟨this.1, by simpa using this.2⟩

theorem filter_mid_of_nodup (t : Table) (r : Row) (hn : (mids t).Nodup) (hr : r ∈ t) :
    t.filter (fun q => q.model_id = r.model_id) = [r] := by
  induction t with
  | nil => cases hr
  | cons a ts ih =>
    simp only [mids, List.map_cons, List.nodup_cons] at hn
    rcases List.mem_cons.mp hr with h1 | h1
    · subst h1
      have : ts.filter (fun q => q.model_id = r.model_id) = [] := by
        apply List.filter_eq_nil_iff.mpr
        intro q hq hc
        exact hn.1 (by
          have : q.model_id = r.model_id := by simpa using hc
          rw [← this]
          exact List.mem_map.mpr ⟨q, hq, rfl⟩)
      simp [List.filter_cons, this]
    · have hne : ¬(a.model_id = r.model_id) := by
        intro hc
        exact hn.1 (by
          rw [hc]
          exact List.mem_map.mpr ⟨r, h1, rfl⟩)
      have := ih hn.2 h1
      simp [List.filter_cons, hne, this]

theorem rowById_of_nodup (t : Table) (r : Row) (hn : (mids t).Nodup) (hr : r ∈ t) :
    rowById t r.model_id = some r := by
  unfold rowById
  rw [filter_mid_of_nodup t r hn hr]
  rfl

theorem nodup_mid_inj (t : Table) (hn : (mids t).Nodup) (a b : Row)
    (ha : a ∈ t) (hb : b ∈ t) (h : a.model_id = b.model_id) : a = b := by
  have h1 := filter_mid_of_nodup t a hn ha
  have h2 := filter_mid_of_nodup t b hn hb
  rw [h] at h1
  rw [h1] at h2
  exact (List.cons.injEq _ _ _ _ ▸ h2).1

/-! ## Frame lemmas: every stage only writes the three assignment columns -/

theorem map_strip_map (f : Row → Row) (t : Table) (h : ∀ r, strip (f r) = strip r) :
    (t.map f).map strip = t.map strip := by
  simp only [List.map_map]
  exact List.map_congr_left (fun a _ => h a)

theorem map_strip_gauged (df : Table) : (gauged df).map strip = df.map strip := by
  unfold gauged
  rw [map_strip_map, map_strip_map]
  · intro r
    by_cases h : r.gauge_id ≠ none <;> simp [h, strip]
  · intro r
    by_cases h : r.assigned_model_id ≠ none <;> simp [h, strip]

theorem map_strip_propagateStep (g : Int) (maxp : Nat) (dir : String) (df : Table)
    (index : Nat) (segId : Int) (out : Table)
    (h : propagateStep g maxp dir df index segId = .ok out) :
    out.map strip = df.map strip := by
  simp only [propagateStep] at h
  split at h
  · cases h; rfl
  · split at h
    · cases h
      exact map_strip_updRows _ _ _ (fun r => rfl)
    · split at h
      · cases h; rfl
      · split at h
        · simp at h
        · split at h
          · split at h
            · simp at h
            · split at h
              · cases h
                exact map_strip_updRows _ _ _ (fun r => rfl)
              · cases h; rfl
          · cases h; rfl

theorem map_strip_propagateLoop (g : Int) (maxp : Nat) (dir : String) :
    ∀ (cs : List Int) (index : Nat) (df out : Table),
      propagateLoop g maxp dir index cs df = .ok out → out.map strip = df.map strip := by
  intro cs
  induction cs with
  | nil =>
    intro index df out h
    cases h; rfl
  | cons segId rest ih =>
    intro index df out h
    simp only [propagateLoop] at h
    split at h
    · simp at h
    · rename_i df2 hstep
      rw [ih _ _ _ h, map_strip_propagateStep g maxp dir df index segId df2 hstep]

theorem map_strip_propagate_in_table (df : Table) (g : Int) (cs : List Int)
    (maxp : Nat) (dir : String) (out : Table)
    (h : propagate_in_table df g cs maxp dir = .ok out) :
    out.map strip = df.map strip :=
  map_strip_propagateLoop g maxp dir cs 0 df out h

theorem map_strip_assignForId (c : Int) (c_so_sub avail : List Row) (df : Table) (id : Int) :
    (assignForId c c_so_sub avail df id).map strip = df.map strip := by
  unfold assignForId
  split
  · rfl
  · split
    · rfl
    · exact map_strip_updRows _ _ _ (fun r => rfl)

theorem map_strip_assignForIds (c : Int) (c_so_sub avail : List Row) :
    ∀ (ids : List Int) (df : Table),
      (assignForIds c c_so_sub avail ids df).map strip = df.map strip := by
  intro ids
  induction ids with
  | nil => intro df; rfl
  | cons id rest ih =>
    intro df
    simp only [assignForIds]
    rw [ih, map_strip_assignForId]

theorem map_strip_assignGroupSO (c so : Int) (c_sub : List Row) (df : Table) :
    (assignGroupSO c so c_sub df).map strip = df.map strip := by
  simp only [assignGroupSO]
  split
  · rfl
  · exact map_strip_assignForIds _ _ _ _ _

theorem map_strip_soLoop (c : Int) (c_sub : List Row) :
    ∀ (sos : List Int) (df : Table),
      (soLoop c c_sub sos df).map strip = df.map strip := by
  intro sos
  induction sos with
  | nil => intro df; rfl
  | cons so rest ih =>
    intro df
    simp only [soLoop]
    rw [ih, map_strip_assignGroupSO]

theorem map_strip_clusterLoop :
    ∀ (cs : List Int) (df : Table), (clusterLoop cs df).map strip = df.map strip := by
  intro cs
  induction cs with
  | nil => intro df; rfl
  | cons c rest ih =>
    intro df
    simp only [clusterLoop]
    rw [ih, map_strip_soLoop]

theorem map_strip_assign_by_distance (df : Table) :
    (assign_by_distance df).map strip = df.map strip :=
  map_strip_clusterLoop _ _

theorem map_strip_assign_gauged (df : Table) :
    (assign_gauged df).map strip = df.map strip := by
  unfold assign_gauged
  apply map_strip_map
  intro r
  by_cases h : r.gauge_id ≠ none <;> simp [h, strip]

theorem map_strip_saberPropagateStep (g : Int) (G : Option Int) (maxp : Nat)
    (dir : String) (t : Table) (index : Nat) (segId : Int) :
    (saberPropagateStep g G maxp dir t index segId).map strip = t.map strip := by
  simp only [saberPropagateStep]
  split
  · rfl
  · split
    · rfl
    · split
      · exact map_strip_updRows _ _ _ (fun r => rfl)
      · split
        · rfl
        · split
          · rfl
          · split
            · split
              · rfl
              · split
                · exact map_strip_updRows _ _ _ (fun r => rfl)
                · rfl
            · rfl

theorem map_strip_saberPropagateLoop (g : Int) (G : Option Int) (maxp : Nat) (dir : String) :
    ∀ (cs : List Int) (index : Nat) (t : Table),
      (saberPropagateLoop g G maxp dir index cs t).map strip = t.map strip := by
  intro cs
  induction cs with
  | nil => intro index t; rfl
  | cons segId rest ih =>
    intro index t
    simp only [saberPropagateLoop]
    rw [ih, map_strip_saberPropagateStep]

theorem map_strip_saberPropagate (t : Table) (g : Int) (G : Option Int)
    (cs : List Int) (maxp : Nat) (dir : String) :
    (saberPropagate t g G cs maxp dir).map strip = t.map strip :=
  map_strip_saberPropagateLoop _ _ _ _ _ _ _

theorem map_strip_assignPropGo (fuel : Nat) (df : Table) (maxp : Nat) :
    ∀ (gss : List Int) (acc out : Table),
      assignPropGo fuel df maxp gss acc = .ok out → out.map strip = acc.map strip := by
  intro gss
  induction gss with
  | nil =>
    intro acc out h
    cases h; rfl
  | cons gs rest ih =>
    intro acc out h
    simp only [assignPropGo] at h
    split at h
    · exact ih _ _ h
    · split at h
      · simp at h
      · split at h
        · simp at h
        · rw [ih _ _ h, map_strip_saberPropagate, map_strip_saberPropagate]

theorem map_strip_assign_propagation (fuel : Nat) (df : Table) (maxp : Nat) (out : Table)
    (h : assign_propagation fuel df maxp = .ok out) : out.map strip = df.map strip :=
  map_strip_assignPropGo fuel df maxp _ df out h

theorem length_eq_of_map_strip (t t2 : Table) (h : t2.map strip = t.map strip) :
    t2.length = t.length := by
  have := congrArg List.length h
  simpa using this

theorem getElem?_strip_of_map_strip (t t2 : Table) (h : t2.map strip = t.map strip)
    (i : Nat) : t2[i]?.map strip = t[i]?.map strip := by
  have := congrArg (fun l => l[i]?) h
  simpa using this

theorem mids_gauged (df : Table) : mids (gauged df) = mids df :=
  mids_eq_of_map_strip _ _ (map_strip_gauged df)

theorem mids_assign_gauged (df : Table) : mids (assign_gauged df) = mids df :=
  mids_eq_of_map_strip _ _ (map_strip_assign_gauged df)

theorem mids_assign_by_distance (df : Table) : mids (assign_by_distance df) = mids df :=
  mids_eq_of_map_strip _ _ (map_strip_assign_by_distance df)

/-- Claim C9: each assignment stage (`gauged`, `propagate_in_table` whenever
it returns, and the distance fallback `assign_by_distance`) returns a table
with exactly the input's rows — same length, same `model_id`s in the same
positions — and leaves every column other than the assignment triple
(`assigned_model_id`, `assigned_gauge_id`, `reason`) unchanged in every row;
`sameFrame` states precisely that the tables agree after erasing the three
assignment columns (so no stage can add rows or alter any other column; the
temporary `dist` column of the source lives on a separate copy and never
enters the returned table, whose row type is fixed here). -/
theorem claim_C9 (df : Table) :
    sameFrame df (gauged df)
    ∧ (∀ (g : Int) (cs : List Int) (maxp : Nat) (dir : String) (out : Table),
        propagate_in_table df g cs maxp dir = .ok out → sameFrame df out)
    ∧ sameFrame df (assign_by_distance df) :=
  ⟨map_strip_gauged df,
   fun _ _ _ _ out h => map_strip_propagate_in_table df _ _ _ _ out h,
   map_strip_assign_by_distance df⟩

/-- Witness for C9 at the Scenario A chain, with a concrete propagation run. -/
theorem claim_C9_witness :
    sameFrame chainA (gauged chainA)
    ∧ sameFrame chainA
        [ mkRow 1 2 1, mkRow 2 3 1, { mkRow 3 4 1 with gauge_id := some 100 },
          { mkRow 4 5 1 with
              assigned_model_id := some 3,
              reason := some "propagation-downstream-1" },
          { mkRow 5 (-1) 1 with
              assigned_model_id := some 3,
              reason := some "propagation-downstream-2" } ]
    ∧ sameFrame chainA (assign_by_distance chainA) :=
  ⟨(claim_C9 chainA).1,
   (claim_C9 chainA).2.1 3 [4, 5] 5 "downstream" _ rfl,
   (claim_C9 chainA).2.2⟩

/-! ## C2: the walks have no cycle guard -/

theorem cycleDownLoop : ∀ fuel : Nat,
    walkDownLoop fuel cycleT (some (mkRow 1 2 1)) (-1) = .error .outOfFuel
    ∧ walkDownLoop fuel cycleT (some (mkRow 2 1 1)) (-1) = .error .outOfFuel := by
  intro fuel
  induction fuel with
  | zero => exact ⟨rfl, rfl⟩
  | succ n ih =>
    refine ⟨?_, ?_⟩
    · have step : walkDownLoop (n + 1) cycleT (some (mkRow 1 2 1)) (-1) =
          (match walkDownLoop n cycleT (some (mkRow 2 1 1)) (-1) with
           | .error e => (.error e : Except Err (List Int))
           | .ok rest => .ok ((mkRow 1 2 1).downstream_id :: rest)) := rfl
      rw [step, ih.2]
    · have step : walkDownLoop (n + 1) cycleT (some (mkRow 2 1 1)) (-1) =
          (match walkDownLoop n cycleT (some (mkRow 1 2 1)) (-1) with
           | .error e => (.error e : Except Err (List Int))
           | .ok rest => .ok ((mkRow 2 1 1).downstream_id :: rest)) := rfl
      rw [step, ih.1]

theorem cycleUpLoop : ∀ (fuel : Nat) (acc : List Int),
    walkUpLoop fuel cycleT [mkRow 2 1 1] acc = .error .outOfFuel
    ∧ walkUpLoop fuel cycleT [mkRow 1 2 1] acc = .error .outOfFuel := by
  intro fuel
  induction fuel with
  | zero => exact fun acc => ⟨rfl, rfl⟩
  | succ n ih =>
    intro acc
    refine ⟨?_, ?_⟩
    · have step : walkUpLoop (n + 1) cycleT [mkRow 2 1 1] acc =
          walkUpLoop n cycleT [mkRow 1 2 1] (acc ++ [2]) := rfl
      rw [step]
      exact (ih (acc ++ [2])).2
    · have step : walkUpLoop (n + 1) cycleT [mkRow 1 2 1] acc =
          walkUpLoop n cycleT [mkRow 2 1 1] (acc ++ [1]) := rfl
      rw [step]
      exact (ih (acc ++ [1])).1

/-- Claim C2: the claim says that on a cyclic network both walks terminate
with a precondition error and never revisit an id.  The source has no cycle
or visited-set guard: on the two-segment cycle `1→2→1` (same stream order),
`walk_downstream` and `walk_upstream` started at id 1 run forever — for every
fuel bound the embedded loops are still running (`outOfFuel`), so no value is
returned and no error is raised, and the loop revisits ids 1 and 2 without
end.  This contradicts the claim; the spec itself records that the original
formulation has no cycle guard and "must gain one". -/
theorem claim_C2 : ∀ fuel : Nat,
    walkDownstream fuel cycleT 1 true (-1) = .error .outOfFuel
    ∧ walkUpstream fuel cycleT 1 true = .error .outOfFuel := by
  intro fuel
  refine ⟨?_, ?_⟩
  · have step : walkDownstream fuel cycleT 1 true (-1) =
        walkDownLoop fuel cycleT (some (mkRow 1 2 1)) (-1) := by
      cases fuel <;> rfl
    rw [step]
    exact (cycleDownLoop fuel).1
  · cases fuel with
    | zero => rfl
    | succ n =>
      have step : walkUpstream (n + 1) cycleT 1 true =
          (match walkUpLoop n cycleT [mkRow 2 1 1] [1] with
           | .error e => (.error e : Except Err (List Int))
           | .ok ids => .ok (sortDedup ids)) := rfl
      rw [step, (cycleUpLoop n [1]).1]

/-! ## C7: outlet sentinel vs missing downstream row -/

/-- Counterexample to C7 as stated: the chain `1→2` returns `(2,)` when
segment 2 drains to the outlet sentinel, but `(2, 99)` when it drains to the
absent id 99 — the dangling id is appended before the missing-row check, so
the two termination modes do not produce equal sequences. -/
theorem claim_C7_counterexample :
    walkDownstream 32 chainOutlet 1 true (-1) = .ok [2]
    ∧ walkDownstream 32 chainDangling 1 true (-1) = .ok [2, 99]
    ∧ ([2] : List Int) ≠ [2, 99] :=
  ⟨rfl, rfl, by decide⟩

/-- Claim C7 (amended): both termination modes of `walk_downstream` return
without raising, but they are not identical: at a row whose `downstream_id`
is the outlet sentinel the loop stops contributing nothing, while at a row
whose `downstream_id` has no matching row the dangling id is appended first,
so the missing-row result carries one extra trailing id. -/
theorem claim_C7_amended : ∀ (fuel : Nat) (tbl : Table) (r : Row) (outlet x : Int),
    x ≠ outlet → rowById tbl x = none →
    walkDownLoop (fuel + 2) tbl (some { r with downstream_id := outlet }) outlet = .ok []
    ∧ walkDownLoop (fuel + 2) tbl (some { r with downstream_id := x }) outlet = .ok [x] := by
  intro fuel tbl r outlet x hx hrow
  constructor
  · simp [walkDownLoop]
  · simp only [walkDownLoop]
    rw [if_neg hx, hrow]
    rfl

/-- Witness for the amended C7 on the concrete chains: the outlet row of
`chainOutlet` stops silently; redirecting it to the absent id 99 appends 99. -/
theorem claim_C7_witness :
    walkDownLoop 10 chainOutlet (some { mkRow 2 0 1 with downstream_id := (-1) }) (-1) = .ok []
    ∧ walkDownLoop 10 chainOutlet (some { mkRow 2 0 1 with downstream_id := 99 }) (-1) = .ok [99] :=
  claim_C7_amended 8 chainOutlet (mkRow 2 0 1) (-1) 99 (by decide) (by decide)

/-! ## C6: the override branch hardcodes the `downstream` label -/

/-- Counterexample to C6 as stated: an upstream pass (`direction =
"upstream"`) over a segment already assigned with reason
`propagation-upstream-1` at equal distance overwrites it, but tags
`propagation-downstream-1`, not `propagation-upstream-1` as the claim
requires. -/
theorem claim_C6_counterexample :
    propagate_in_table overrideT 7 [1] 5 "upstream" =
      .ok [ { mkRow 1 0 1 with
                assigned_model_id := some 7,
                reason := some "propagation-downstream-1" } ]
    ∧ ("propagation-downstream-1" : String) ≠ "propagation-upstream-1" :=
  ⟨rfl, by decide⟩

/-- Claim C6 (amended): whenever `propagate_in_table` processes a candidate
segment at hop distance `d = index + 1 ≤ max_prop` whose matching rows are
all assigned, and whose first matching row carries a reason containing
`propagation` with recorded distance `d_prev ≥ d`, it overwrites the
candidate with the current gauged stream — but the reason is always tagged
with the literal direction `downstream`, regardless of the `direction`
argument of the pass (`src/rbc/_propagation.py:107`). -/
theorem claim_C6_amended (g : Int) (maxp : Nat) (dir : String) (df : Table)
    (index : Nat) (segId : Int) (row : Row) (rs : String) (dprev : Nat)
    (hmax : index + 1 ≤ maxp)
    (hhead : (df.filter (fun r => r.model_id = segId)).head? = some row)
    (hany : (df.filter (fun r => r.model_id = segId)).any
        (fun r => r.assigned_model_id = none) = false)
    (hres : row.reason = some rs)
    (hcon : containsSub rs "propagation" = true)
    (hparse : lastDashNat rs = some dprev)
    (hd : index + 1 ≤ dprev) :
    propagateStep g maxp dir df index segId =
      .ok (updRows segId (fun r =>
        { r with assigned_model_id := some g,
                 reason := some ("propagation-downstream-" ++ toString (index + 1)) }) df) := by
  simp only [propagateStep]
  rw [if_neg (by omega)]
  have hne : (df.filter (fun r => r.model_id = segId)).isEmpty = false := by
    cases hf : df.filter (fun r => r.model_id = segId) with
    | nil => rw [hf] at hhead; simp at hhead
    | cons a l => simp
  rw [if_neg (by simp [hne, hany])]
  rw [hhead]
  simp only
  rw [hres]
  simp only [hcon, if_true, hparse]
  rw [if_pos hd]

/-- Witness for the amended C6: the upstream pass over `overrideT` overwrites
with the `downstream` label. -/
theorem claim_C6_witness :
    propagateStep 7 5 "upstream" overrideT 0 1 =
      .ok (updRows 1 (fun r =>
        { r with assigned_model_id := some 7,
                 reason := some ("propagation-downstream-" ++ toString (0 + 1)) }) overrideT) :=
  claim_C6_amended 7 5 "upstream" overrideT 0 1
    { mkRow 1 0 1 with
        assigned_model_id := some 9, reason := some "propagation-upstream-1" }
    "propagation-upstream-1" 1 (by decide) (by decide) (by decide) (by decide)
    (by decide) (by decide) (by decide)

/-! ## C1: Scenario A evaluation -/

/-- Claim C1: on the Scenario A chain (gauge at segment 3, `max_prop = 5`),
the claim expects segment 2 → `propagation-upstream-1` and segment 1 →
`propagation-upstream-2` after the gauged and propagation stages.  The code
instead produces segment 1 → `propagation-upstream-1` and segment 2 →
`propagation-upstream-2`: `walk_upstream` returns `tuple(set([3, 2, 1])) =
(1, 2, 3)` — the start id is included and the hop order is replaced by the
set's iteration order — and `propagate_in_table` turns list position into hop
distance.  Segments 3, 4 and 5 match the claim. -/
theorem claim_C1 :
    (propagation 32 (gauged chainA) 5).map (fun t => t.map (fun r => (r.model_id, r.reason))) =
      .ok [ (1, some "propagation-upstream-1"), (2, some "propagation-upstream-2"),
            (3, some "gauged"), (4, some "propagation-downstream-1"),
            (5, some "propagation-downstream-2") ] := by
  rfl

/-! ## Rows the distance fallback never touches -/

theorem mem_of_getElem? {l : List Row} {i : Nat} {a : Row} (h : l[i]? = some a) : a ∈ l := by
  have := List.getElem?_eq_some.mp h
  obtain ⟨hi, hget⟩ := this
  exact hget ▸ List.getElem_mem hi

theorem assignForId_miss (c : Int) (csub avail : List Row) (df : Table) (id : Int)
    (i : Nat) (ρ : Row) (hr : df[i]? = some ρ) (hmid : ρ.model_id ≠ id) :
    (assignForId c csub avail df id)[i]? = some ρ := by
  unfold assignForId
  split
  · exact hr
  · split
    · exact hr
    · rw [getElem?_updRows, hr]
      simp [hmid]

theorem assignForIds_miss (c : Int) (csub avail : List Row) :
    ∀ (ids : List Int) (df : Table) (i : Nat) (ρ : Row),
      df[i]? = some ρ → ρ.model_id ∉ ids →
      (assignForIds c csub avail ids df)[i]? = some ρ := by
  intro ids
  induction ids with
  | nil => intro df i ρ hr _; exact hr
  | cons id rest ih =>
    intro df i ρ hr hni
    simp only [assignForIds]
    exact ih _ i ρ
      (assignForId_miss c csub avail df id i ρ hr (fun h => hni (h ▸ List.mem_cons_self _ _)))
      (fun h => hni (List.mem_cons_of_mem _ h))

theorem assignGroupSO_miss (c so : Int) (csub : List Row) (df : Table)
    (i : Nat) (ρ : Row) (hr : df[i]? = some ρ)
    (hni : ρ.model_id ∉ unassignedMids csub) :
    (assignGroupSO c so csub df)[i]? = some ρ := by
  simp only [assignGroupSO]
  split
  · exact hr
  · apply assignForIds_miss _ _ _ _ _ _ _ hr
    intro hmem
    apply hni
    obtain ⟨r, hr1, hr2⟩ := List.mem_map.mp hmem
    have h1 := List.mem_filter.mp hr1
    have h2 := List.mem_filter.mp h1.1
    exact List.mem_map.mpr ⟨r, List.mem_filter.mpr ⟨h2.1, h1.2⟩, hr2⟩

theorem soLoop_miss (c : Int) (csub : List Row) :
    ∀ (sos : List Int) (df : Table) (i : Nat) (ρ : Row),
      df[i]? = some ρ → ρ.model_id ∉ unassignedMids csub →
      (soLoop c csub sos df)[i]? = some ρ := by
  intro sos
  induction sos with
  | nil => intro df i ρ hr _; exact hr
  | cons so rest ih =>
    intro df i ρ hr hni
    simp only [soLoop]
    exact ih _ i ρ (assignGroupSO_miss c so csub df i ρ hr hni) hni

theorem clusterLoop_untouched :
    ∀ (cs : List Int) (acc : Table) (i : Nat) (ρ : Row),
      (mids acc).Nodup → acc[i]? = some ρ →
      (ρ.assigned_model_id ≠ none ∨ ρ.fdc_cluster = none) →
      (clusterLoop cs acc)[i]? = some ρ := by
  intro cs
  induction cs with
  | nil => intro acc i ρ _ hr _; exact hr
  | cons c rest ih =>
    intro acc i ρ hn hr hρ
    simp only [clusterLoop]
    have hmiss : ρ.model_id ∉ unassignedMids (acc.filter (fun r => r.fdc_cluster = some c)) := by
      intro hmem
      obtain ⟨σ, hσ1, hσ2⟩ := List.mem_map.mp hmem
      have h1 := List.mem_filter.mp hσ1
      have h2 := List.mem_filter.mp h1.1
      have hσacc : σ ∈ acc := h2.1
      have hσassigned : σ.assigned_model_id = none := by simpa using h1.2
      have hσfdc : σ.fdc_cluster = some c := by simpa using h2.2
      have hρacc : ρ ∈ acc := mem_of_getElem? hr
      have : σ = ρ := nodup_mid_inj acc hn σ ρ hσacc hρacc hσ2
      subst this
      rcases hρ with h | h
      · exact h hσassigned
      · rw [h] at hσfdc; cases hσfdc
    have hstep := soLoop_miss c _ (orderValues (acc.filter (fun r => r.fdc_cluster = some c)))
      acc i ρ hr hmiss
    have hframe := map_strip_soLoop c (acc.filter (fun r => r.fdc_cluster = some c))
      (orderValues (acc.filter (fun r => r.fdc_cluster = some c))) acc
    have hmids := mids_eq_of_map_strip _ _ hframe
    exact ih _ i ρ (hmids ▸ hn) hstep hρ

theorem assign_by_distance_untouched (df : Table) (i : Nat) (ρ : Row)
    (hn : (mids df).Nodup) (hr : df[i]? = some ρ)
    (hρ : ρ.assigned_model_id ≠ none ∨ ρ.fdc_cluster = none) :
    (assign_by_distance df)[i]? = some ρ :=
  clusterLoop_untouched _ df i ρ hn hr hρ

/-! ## C3: gauged rows survive the later stages -/

theorem propagateStep_gauged_untouched (g : Int) (maxp : Nat) (dir : String)
    (acc : Table) (index : Nat) (segId : Int) (i : Nat) (ρ : Row) (out : Table)
    (hn : (mids acc).Nodup) (hr : acc[i]? = some ρ)
    (hreason : ρ.reason = some "gauged") (hassigned : ρ.assigned_model_id ≠ none)
    (h : propagateStep g maxp dir acc index segId = .ok out) :
    out[i]? = some ρ := by
  by_cases hmid : ρ.model_id = segId
  · have hρmem : ρ ∈ acc := mem_of_getElem? hr
    have hfilter : acc.filter (fun q => q.model_id = segId) = [ρ] := by
      rw [← hmid]
      exact filter_mid_of_nodup acc ρ hn hρmem
    simp only [propagateStep, hfilter] at h
    split at h
    · cases h; exact hr
    · split at h
      · rename_i hcond
        exfalso
        simp [hassigned] at hcond
      · split at h
        · cases h; exact hr
        · rename_i row hrow
          have hrowe : row = ρ := by
            simp only [List.head?_cons, Option.some.injEq] at hrow
            exact hrow.symm
          subst hrowe
          split at h
          · rename_i hnone
            rw [hreason] at hnone; cases hnone
          · rename_i rs hsome
            rw [hreason] at hsome
            injection hsome with hrs
            subst hrs
            split at h
            · rename_i hcontains
              exact absurd hcontains (by decide)
            · cases h; exact hr
  · simp only [propagateStep] at h
    split at h
    · cases h; exact hr
    · split at h
      · cases h
        rw [getElem?_updRows, hr]
        simp [hmid]
      · split at h
        · cases h; exact hr
        · split at h
          · cases h
          · split at h
            · split at h
              · cases h
              · split at h
                · cases h
                  rw [getElem?_updRows, hr]
                  simp [hmid]
                · cases h; exact hr
            · cases h; exact hr

theorem propagateLoop_gauged_untouched (g : Int) (maxp : Nat) (dir : String) :
    ∀ (cs : List Int) (index : Nat) (acc out : Table) (i : Nat) (ρ : Row),
      (mids acc).Nodup → acc[i]? = some ρ →
      ρ.reason = some "gauged" → ρ.assigned_model_id ≠ none →
      propagateLoop g maxp dir index cs acc = .ok out → out[i]? = some ρ := by
  intro cs
  induction cs with
  | nil =>
    intro index acc out i ρ _ hr _ _ h
    cases h; exact hr
  | cons segId rest ih =>
    intro index acc out i ρ hn hr hreason hassigned h
    simp only [propagateLoop] at h
    split at h
    · cases h
    · rename_i acc2 hstep
      have hmids : mids acc2 = mids acc :=
        mids_eq_of_map_strip _ _ (map_strip_propagateStep g maxp dir acc index segId acc2 hstep)
      exact ih _ acc2 out i ρ (hmids ▸ hn)
        (propagateStep_gauged_untouched g maxp dir acc index segId i ρ acc2 hn hr hreason hassigned hstep)
        hreason hassigned h

/-- Counterexample to C3 as stated: the claim quantifies over every
assignment table and every row whose reason is `gauged`.  A row with reason
`gauged` but a null `assigned_id` (a pair the pipeline itself never makes,
but one the claim's quantification admits) falls into the unassigned branch
of `propagate_in_table` and is overwritten. -/
theorem claim_C3_counterexample :
    gaugedNullT.map (fun r => r.reason) = [some "gauged"]
    ∧ propagate_in_table gaugedNullT 7 [1] 5 "downstream" =
        .ok [ { mkRow 1 0 1 with
                  assigned_model_id := some 7,
                  reason := some "propagation-downstream-1" } ]
    ∧ (some "propagation-downstream-1" : Option String) ≠ some "gauged" :=
  ⟨rfl, rfl, by decide⟩

/-- Claim C3 (amended): in a table with unique `model_id`s (the data model's
invariant, checked as a precondition per the spec's error-handling section),
every row whose reason is `gauged` and whose `assigned_model_id` is non-null
is returned unchanged — same position, every column including
`assigned_model_id`, `assigned_gauge_id` and `reason` — by
`propagate_in_table` (with any gauged stream, connected segments, `max_prop`
and direction, whenever it returns) and by the distance-fallback stage. -/
theorem claim_C3_amended (df : Table) (hn : (mids df).Nodup) (i : Nat) (ρ : Row)
    (hr : df[i]? = some ρ) (hreason : ρ.reason = some "gauged")
    (hassigned : ρ.assigned_model_id ≠ none) :
    (∀ (g : Int) (cs : List Int) (maxp : Nat) (dir : String) (out : Table),
        propagate_in_table df g cs maxp dir = .ok out → out[i]? = some ρ)
    ∧ (assign_by_distance df)[i]? = some ρ :=
  ⟨fun g cs maxp dir out h =>
    propagateLoop_gauged_untouched g maxp dir cs 0 df out i ρ hn hr hreason hassigned h,
   assign_by_distance_untouched df i ρ hn hr (Or.inl hassigned)⟩

/-- Witness for the amended C3 on Scenario C's table: the gauged row survives
a concrete propagation pass and the distance fallback. -/
theorem claim_C3_witness :
    ([ { mkRow 1 (-1) 1 with
           fdc_cluster := some 1,
           assigned_model_id := some 9,
           reason := some "propagation-downstream-1" },
       { mkRow 2 (-1) 1 with
           fdc_cluster := some 1, x := 2,
           assigned_model_id := some 2, assigned_gauge_id := some 20,
           reason := some "gauged" },
       { mkRow 3 (-1) 1 with
           fdc_cluster := some 1, x := 5,
           assigned_model_id := some 3, assigned_gauge_id := some 30,
           reason := some "gauged" } ] : Table)[1]? =
      some { mkRow 2 (-1) 1 with
               fdc_cluster := some 1, x := 2,
               assigned_model_id := some 2, assigned_gauge_id := some 20,
               reason := some "gauged" }
    ∧ (assign_by_distance distT)[1]? =
      some { mkRow 2 (-1) 1 with
               fdc_cluster := some 1, x := 2,
               assigned_model_id := some 2, assigned_gauge_id := some 20,
               reason := some "gauged" } :=
  ⟨(claim_C3_amended distT (by decide) 1
      { mkRow 2 (-1) 1 with
          fdc_cluster := some 1, x := 2,
          assigned_model_id := some 2, assigned_gauge_id := some 20,
          reason := some "gauged" }
      (by decide) (by decide) (by decide)).1 9 [1, 2] 5 "downstream" _ rfl,
   (claim_C3_amended distT (by decide) 1
      { mkRow 2 (-1) 1 with
          fdc_cluster := some 1, x := 2,
          assigned_model_id := some 2, assigned_gauge_id := some 20,
          reason := some "gauged" }
      (by decide) (by decide) (by decide)).2⟩

/-! ## C5: what the same-order walks can return -/

theorem mem_insertSorted (a x : Int) : ∀ l : List Int,
    a ∈ insertSorted x l ↔ a = x ∨ a ∈ l := by
  intro l
  induction l with
  | nil => simp [insertSorted]
  | cons y ys ih =>
    simp only [insertSorted]
    split
    · simp [List.mem_cons]
    · simp only [List.mem_cons, ih]
      tauto

theorem mem_insSort (a : Int) : ∀ l : List Int, a ∈ insSort l ↔ a ∈ l := by
  intro l
  induction l with
  | nil => simp [insSort]
  | cons x xs ih => simp [insSort, mem_insertSorted, ih]

theorem mem_sortDedup (a : Int) (l : List Int) : a ∈ sortDedup l ↔ a ∈ l := by
  unfold sortDedup
  rw [mem_insSort, List.mem_dedup]

theorem mem_orderView (df : Table) (o : Int) (r : Row)
    (h : r ∈ df.filter (fun q => q.stream_order = o)) :
    r ∈ df ∧ r.stream_order = o := by
  have := List.mem_filter.mp h
  exact ⟨this.1, by simpa using this.2⟩

theorem mem_upstreamRows (t : Table) (id : Int) (r : Row) (h : r ∈ upstreamRows t id) :
    r ∈ t ∧ r.downstream_id = id := by
  have := List.mem_filter.mp h
  exact ⟨this.1, by simpa using this.2⟩

theorem walkDownLoop_none (fuel : Nat) (tbl : Table) (outlet : Int) (res : List Int)
    (h : walkDownLoop fuel tbl none outlet = .ok res) : res = [] := by
  cases fuel with
  | zero => cases h
  | succ n => cases h; rfl

theorem walkDownLoop_mem : ∀ (fuel : Nat) (tbl : Table) (cur : Option Row)
    (outlet : Int) (res : List Int),
    walkDownLoop fuel tbl cur outlet = .ok res →
    (∀ r, cur = some r → r ∈ tbl) →
    (∀ id ∈ res, ∃ r ∈ tbl, r.downstream_id = id)
    ∧ (∀ id ∈ res.dropLast, ∃ r ∈ tbl, r.model_id = id) := by
  intro fuel
  induction fuel with
  | zero => intro tbl cur outlet res h; cases h
  | succ n ih =>
    intro tbl cur outlet res h hcur
    cases cur with
    | none =>
      cases h
      exact ⟨fun id hid => absurd hid (by simp), fun id hid => absurd hid (by simp)⟩
    | some row =>
      simp only [walkDownLoop] at h
      split at h
      · cases h
        exact ⟨fun id hid => absurd hid (by simp), fun id hid => absurd hid (by simp)⟩
      · split at h
        · cases h
        · rename_i rest hrec
          cases h
          have hsub : ∀ r, rowById tbl row.downstream_id = some r → r ∈ tbl :=
            fun r hr => (rowById_mem tbl row.downstream_id r hr).1
          have IH := ih tbl (rowById tbl row.downstream_id) outlet rest hrec hsub
          constructor
          · intro id hid
            rcases List.mem_cons.mp hid with hd | htail
            · exact ⟨row, hcur row rfl, hd.symm⟩
            · exact IH.1 id htail
          · intro id hid
            cases hrest : rest with
            | nil =>
              rw [hrest] at hid
              simp [List.dropLast] at hid
            | cons q qs =>
              rw [hrest] at hid
              simp only [List.dropLast_cons₂] at hid
              rcases List.mem_cons.mp hid with h1 | h1
              · subst h1
                cases hby : rowById tbl row.downstream_id with
                | none =>
                  exfalso
                  rw [hby] at hrec
                  have := walkDownLoop_none n tbl outlet rest hrec
                  rw [this] at hrest
                  cases hrest
                | some r2 =>
                  exact ⟨r2, (rowById_mem _ _ _ hby).1, (rowById_mem _ _ _ hby).2⟩
              · apply IH.2 id
                rw [hrest]
                exact h1

theorem walkUp_mem : ∀ fuel : Nat,
    (∀ (view : Table) (start : Int) (res : List Int),
       walkUpAux fuel view start = .ok res →
       (∀ id ∈ res, id = start ∨ ∃ r ∈ view, r.model_id = id) ∧ start ∈ res)
    ∧ (∀ (view : Table) (rows : List Row) (acc res : List Int),
       (∀ r ∈ rows, r ∈ view) → walkUpLoop fuel view rows acc = .ok res →
       (∀ id ∈ res, id ∈ acc ∨ ∃ r ∈ view, r.model_id = id) ∧ (∀ id ∈ acc, id ∈ res))
    ∧ (∀ (view : Table) (rows : List Row) (acc acc2 : List Int) (rows2 : List Row),
       (∀ r ∈ rows, r ∈ view) → walkUpFor fuel view rows acc = .ok (acc2, rows2) →
       (∀ id ∈ acc2, id ∈ acc ∨ ∃ r ∈ view, r.model_id = id) ∧ (∀ id ∈ acc, id ∈ acc2)
       ∧ (∀ r ∈ rows2, r ∈ view)) := by
  intro fuel
  induction fuel with
  | zero =>
    refine ⟨?_, ?_, ?_⟩
    · intro view start res h; cases h
    · intro view rows acc res _ h; cases h
    · intro view rows acc acc2 rows2 _ h; cases h
  | succ n ih =>
    obtain ⟨ihA, ihB, ihC⟩ := ih
    have hAux : ∀ (view : Table) (start : Int) (res : List Int),
        walkUpAux (n + 1) view start = .ok res →
        (∀ id ∈ res, id = start ∨ ∃ r ∈ view, r.model_id = id) ∧ start ∈ res := by
      intro view start res h
      simp only [walkUpAux] at h
      have hsub : ∀ r ∈ upstreamRows view start, r ∈ view :=
        fun r hr => (mem_upstreamRows view start r hr).1
      obtain ⟨h1, h2⟩ := ihB view _ [start] res hsub h
      refine ⟨?_, h2 start (by simp)⟩
      intro id hid
      rcases h1 id hid with hacc | hex
      · left; simpa using hacc
      · right; exact hex
    refine ⟨hAux, ?_, ?_⟩
    · intro view rows acc res hsub h
      cases rows with
      | nil =>
        cases h
        exact ⟨fun id hid => Or.inl hid, fun id hid => hid⟩
      | cons r rs =>
        cases rs with
        | nil =>
          simp only [walkUpLoop] at h
          have hsub2 : ∀ q ∈ upstreamRows view r.model_id, q ∈ view :=
            fun q hq => (mem_upstreamRows view r.model_id q hq).1
          obtain ⟨h1, h2⟩ := ihB view _ (acc ++ [r.model_id]) res hsub2 h
          constructor
          · intro id hid
            rcases h1 id hid with hacc | hex
            · rcases List.mem_append.mp hacc with ha | hb
              · exact Or.inl ha
              · right
                refine ⟨r, hsub r (by simp), ?_⟩
                have : id = r.model_id := by simpa using hb
                exact this.symm
            · right; exact hex
          · intro id hid
            exact h2 id (List.mem_append_left _ hid)
        | cons r2 rs2 =>
          simp only [walkUpLoop] at h
          cases hfor : walkUpFor n view (r :: r2 :: rs2) acc with
          | error e =>
            rw [hfor] at h
            have h2 : (Except.error e : Except Err (List Int)) = .ok res := h
            cases h2
          | ok p =>
            obtain ⟨acc2, rows2⟩ := p
            rw [hfor] at h
            have hloop : walkUpLoop n view rows2 acc2 = .ok res := h
            obtain ⟨g1, g2, g3⟩ := ihC view _ acc acc2 rows2 hsub hfor
            obtain ⟨h1, h2⟩ := ihB view rows2 acc2 res g3 hloop
            constructor
            · intro id hid
              rcases h1 id hid with hacc2 | hex
              · exact g1 id hacc2
              · right; exact hex
            · intro id hid
              exact h2 id (g2 id hid)
    · intro view rows acc acc2 rows2 hsub h
      cases rows with
      | nil =>
        cases h
        exact ⟨fun id hid => Or.inl hid, fun id hid => hid, fun r hr => absurd hr (by simp)⟩
      | cons r rest =>
        simp only [walkUpFor] at h
        split at h
        · cases h
        · rename_i branch hbranch
          have hbr : ∀ id ∈ sortDedup branch, ∃ q ∈ view, q.model_id = id := by
            intro id hid
            rcases (ihA view r.model_id branch hbranch).1 id ((mem_sortDedup id branch).mp hid) with he | hex
            · exact ⟨r, hsub r (by simp), he.symm⟩
            · exact hex
          cases rest with
          | nil =>
            cases h
            refine ⟨?_, ?_, ?_⟩
            · intro id hid
              rcases List.mem_append.mp hid with ha | hb
              · exact Or.inl ha
              · exact Or.inr (hbr id hb)
            · intro id hid
              exact List.mem_append_left _ hid
            · intro q hq
              exact (mem_upstreamRows view r.model_id q hq).1
          | cons q qs =>
            have hsub2 : ∀ w ∈ q :: qs, w ∈ view :=
              fun w hw => hsub w (List.mem_cons_of_mem _ hw)
            obtain ⟨g1, g2, g3⟩ := ihC view (q :: qs) (acc ++ sortDedup branch) acc2 rows2 hsub2 h
            refine ⟨?_, ?_, g3⟩
            · intro id hid
              rcases g1 id hid with hmem | hex
              · rcases List.mem_append.mp hmem with ha | hb
                · exact Or.inl ha
                · exact Or.inr (hbr id hb)
              · exact Or.inr hex
            · intro id hid
              exact g2 id (List.mem_append_left _ hid)

/-- Counterexample to C5 as stated: on `orderT` (segment 1 of order 1 drains
to segment 2 of order 2), `walk_downstream(1, same_order=True)` returns
`(2,)` although segment 2's `stream_order` is 2, not the start's order 1 —
the dangling downstream id is appended before the same-order check can fail
to find its row. -/
theorem claim_C5_counterexample :
    walkDownstream 10 orderT 1 true (-1) = .ok [2]
    ∧ (rowById orderT 1).map (fun r => r.stream_order) = some 1
    ∧ (∀ r ∈ orderT, r.model_id = 2 → r.stream_order ≠ 1) :=
  ⟨rfl, rfl, by decide⟩

/-- Claim C5 (amended): with `same_order=True` and the start id present
(first matching row `r0`), every id returned by `walk_upstream` belongs to a
segment whose `stream_order` equals `r0`'s, and the result always contains
the start id.  For `walk_downstream` the same holds for every returned id
except possibly the last: each returned id is the `downstream_id` of a
same-order segment, but the final id may belong to a segment of a different
order (or to none at all), because it is appended before the missing-row
check stops the walk. -/
theorem claim_C5_amended (fuel : Nat) (df : Table) (start outlet : Int) (r0 : Row)
    (hr0 : rowById df start = some r0) :
    (∀ res, walkUpstream fuel df start true = .ok res →
       start ∈ res
       ∧ ∀ id ∈ res, ∃ r ∈ df, r.model_id = id ∧ r.stream_order = r0.stream_order)
    ∧ (∀ res, walkDownstream fuel df start true outlet = .ok res →
       (∀ id ∈ res, ∃ r ∈ df, r.stream_order = r0.stream_order ∧ r.downstream_id = id)
       ∧ (∀ id ∈ res.dropLast, ∃ r ∈ df, r.model_id = id ∧ r.stream_order = r0.stream_order)) := by
  have hr0df : r0 ∈ df ∧ r0.model_id = start := rowById_mem df start r0 hr0
  constructor
  · intro res h
    simp only [walkUpstream, sameOrderView, hr0] at h
    cases haux : walkUpAux fuel (df.filter (fun q => q.stream_order = r0.stream_order)) start with
    | error e =>
      rw [haux] at h
      have h2 : (Except.error e : Except Err (List Int)) = .ok res := h
      cases h2
    | ok ids =>
      rw [haux] at h
      have h2 : (Except.ok (sortDedup ids) : Except Err (List Int)) = .ok res := h
      cases h2
      obtain ⟨hall, hstart⟩ :=
        (walkUp_mem fuel).1 (df.filter (fun q => q.stream_order = r0.stream_order)) start ids haux
      constructor
      · exact (mem_sortDedup start ids).mpr hstart
      · intro id hid
        rcases hall id ((mem_sortDedup id ids).mp hid) with he | hex
        · exact ⟨r0, hr0df.1, he ▸ hr0df.2, rfl⟩
        · obtain ⟨r, hrview, hrid⟩ := hex
          have := mem_orderView df r0.stream_order r hrview
          exact ⟨r, this.1, hrid, this.2⟩
  · intro res h
    simp only [walkDownstream, sameOrderView, hr0] at h
    have hsub : ∀ r, rowById (df.filter (fun q => q.stream_order = r0.stream_order)) start = some r →
        r ∈ df.filter (fun q => q.stream_order = r0.stream_order) :=
      fun r hr => (rowById_mem _ start r hr).1
    obtain ⟨h1, h2⟩ := walkDownLoop_mem fuel _ _ outlet res h hsub
    constructor
    · intro id hid
      obtain ⟨r, hrview, hrd⟩ := h1 id hid
      have := mem_orderView df r0.stream_order r hrview
      exact ⟨r, this.1, this.2, hrd⟩
    · intro id hid
      obtain ⟨r, hrview, hrm⟩ := h2 id hid
      have := mem_orderView df r0.stream_order r hrview
      exact ⟨r, this.1, hrm, this.2⟩

/-- Witness for the amended C5 on the Scenario A chain from segment 3. -/
theorem claim_C5_witness :
    ((3 : Int) ∈ ([1, 2, 3] : List Int)
      ∧ ∀ id ∈ ([1, 2, 3] : List Int), ∃ r ∈ chainA, r.model_id = id ∧ r.stream_order = 1)
    ∧ ((∀ id ∈ ([4, 5] : List Int), ∃ r ∈ chainA, r.stream_order = 1 ∧ r.downstream_id = id)
      ∧ (∀ id ∈ ([4, 5] : List Int).dropLast, ∃ r ∈ chainA, r.model_id = id ∧ r.stream_order = 1)) := by
  have h := claim_C5_amended 32 chainA 3 (-1) { mkRow 3 4 1 with gauge_id := some 100 } (by decide)
  exact ⟨h.1 [1, 2, 3] rfl, h.2 [4, 5] rfl⟩

/-! ## C4: the gauged stage and its permanence -/

theorem mem_updRows (t : Table) (segId : Int) (u : Row → Row) (r2 : Row)
    (h : r2 ∈ updRows segId u t) :
    ∃ r ∈ t, r2 = if r.model_id = segId then u r else r := by
  obtain ⟨r, hr, hr2⟩ := List.mem_map.mp h
  exact ⟨r, hr, hr2.symm⟩

theorem assign_gauged_triple (df : Table) : ∀ r ∈ assign_gauged df, gaugedTriple r := by
  intro r hr hg
  obtain ⟨r0, hr0, hr0e⟩ := List.mem_map.mp hr
  by_cases h0 : r0.gauge_id ≠ none
  · rw [if_pos h0] at hr0e
    subst hr0e
    exact ⟨rfl, rfl, rfl⟩
  · rw [if_neg h0] at hr0e
    subst hr0e
    exact absurd hg h0

theorem saberPropagateStep_triple (g : Int) (G : Option Int) (maxp : Nat) (dir : String)
    (t : Table) (index : Nat) (segId : Int)
    (hn : (mids t).Nodup) (ht : ∀ r ∈ t, gaugedTriple r) :
    ∀ r ∈ saberPropagateStep g G maxp dir t index segId, gaugedTriple r := by
  have hupd : ∀ (row : Row), rowById t segId = some row →
      (row.assigned_model_id = none ∨ row.reason ≠ some "gauged") →
      ∀ (u : Row → Row), (∀ q, (u q).gauge_id = q.gauge_id) →
      (row.assigned_model_id = none ∨
        (row.assigned_model_id ≠ none ∧ row.reason ≠ some "gauged")) →
      ∀ r ∈ updRows segId u t, gaugedTriple r := by
    intro row hrow _ u hu hcase r hr hg
    obtain ⟨r0, hr0, hr0e⟩ := mem_updRows t segId u r hr
    by_cases hm : r0.model_id = segId
    · exfalso
      have : rowById t segId = some r0 := by
        rw [← hm]
        exact rowById_of_nodup t r0 hn hr0
      rw [hrow] at this
      injection this with hre
      subst hre
      have hg0 : row.gauge_id ≠ none := by
        rw [if_pos hm] at hr0e
        rw [hr0e] at hg
        rw [hu] at hg
        exact hg
      have htr := ht row hr0 hg0
      rcases hcase with hc | hc
      · rw [htr.1] at hc; cases hc
      · exact hc.2 htr.2.2
    · rw [if_neg hm] at hr0e
      subst hr0e
      exact ht _ hr0 hg
  simp only [saberPropagateStep]
  split
  · exact ht
  · split
    · exact ht
    · rename_i row hrow
      split
      · rename_i hassigned
        exact hupd row hrow (Or.inl hassigned) _ (fun q => rfl) (Or.inl hassigned)
      · rename_i hnassigned
        split
        · exact ht
        · rename_i hreason
          split
          · exact ht
          · rename_i rs hrs
            split
            · split
              · exact ht
              · split
                · exact hupd row hrow (Or.inr hreason) _ (fun q => rfl)
                    (Or.inr ⟨hnassigned, hreason⟩)
                · exact ht
            · exact ht

theorem saberPropagateLoop_triple (g : Int) (G : Option Int) (maxp : Nat) (dir : String) :
    ∀ (cs : List Int) (index : Nat) (t : Table),
      (mids t).Nodup → (∀ r ∈ t, gaugedTriple r) →
      ∀ r ∈ saberPropagateLoop g G maxp dir index cs t, gaugedTriple r := by
  intro cs
  induction cs with
  | nil => intro index t _ ht; exact ht
  | cons segId rest ih =>
    intro index t hn ht
    simp only [saberPropagateLoop]
    have hmids : mids (saberPropagateStep g G maxp dir t index segId) = mids t :=
      mids_eq_of_map_strip _ _ (map_strip_saberPropagateStep g G maxp dir t index segId)
    exact ih (index + 1) _ (hmids ▸ hn)
      (saberPropagateStep_triple g G maxp dir t index segId hn ht)

theorem mids_saberPropagate (t : Table) (g : Int) (G : Option Int) (cs : List Int)
    (maxp : Nat) (dir : String) : mids (saberPropagate t g G cs maxp dir) = mids t :=
  mids_eq_of_map_strip _ _ (map_strip_saberPropagate t g G cs maxp dir)

theorem saberPropagate_triple (t : Table) (g : Int) (G : Option Int) (cs : List Int)
    (maxp : Nat) (dir : String) (hn : (mids t).Nodup) (ht : ∀ r ∈ t, gaugedTriple r) :
    ∀ r ∈ saberPropagate t g G cs maxp dir, gaugedTriple r :=
  saberPropagateLoop_triple g G maxp dir cs 0 t hn ht

theorem assignPropGo_triple (fuel : Nat) (df : Table) (maxp : Nat) :
    ∀ (gss : List Int) (acc out : Table),
      (mids acc).Nodup → (∀ r ∈ acc, gaugedTriple r) →
      assignPropGo fuel df maxp gss acc = .ok out →
      ∀ r ∈ out, gaugedTriple r := by
  intro gss
  induction gss with
  | nil =>
    intro acc out _ ht h
    cases h
    exact ht
  | cons gs rest ih =>
    intro acc out hn ht h
    simp only [assignPropGo] at h
    split at h
    · exact ih acc out hn ht h
    · rename_i row hrow
      split at h
      · cases h
      · rename_i up hup
        split at h
        · cases h
        · rename_i down hdown
          have hn1 : (mids (saberPropagate acc gs row.gauge_id up maxp "upstream")).Nodup := by
            rw [mids_saberPropagate]; exact hn
          have ht1 := saberPropagate_triple acc gs row.gauge_id up maxp "upstream" hn ht
          have hn2 : (mids (saberPropagate (saberPropagate acc gs row.gauge_id up maxp "upstream")
              gs row.gauge_id down maxp "downstream")).Nodup := by
            rw [mids_saberPropagate, mids_saberPropagate]; exact hn
          have ht2 := saberPropagate_triple _ gs row.gauge_id down maxp "downstream" hn1 ht1
          exact ih _ out hn2 ht2 h

theorem abd_triple (t : Table) (hn : (mids t).Nodup) (ht : ∀ r ∈ t, gaugedTriple r) :
    ∀ r ∈ assign_by_distance t, gaugedTriple r := by
  intro r2 hr2 hg
  obtain ⟨n, hn2⟩ := List.get_of_mem hr2
  have hi : (assign_by_distance t)[n.1]? = some r2 := by
    rw [List.getElem?_eq_getElem n.2]
    rw [← List.get_eq_getElem, hn2]
  have hmapstrip := map_strip_assign_by_distance t
  have hlen := length_eq_of_map_strip t _ hmapstrip
  have hilt : n.1 < t.length := by
    have := n.2
    omega
  have hρ : t[n.1]? = some t[n.1] := List.getElem?_eq_getElem hilt
  have hstrip := getElem?_strip_of_map_strip t _ hmapstrip n.1
  rw [hi, hρ] at hstrip
  have hstripe : strip r2 = strip (t[n.1]) := by simpa using hstrip
  have hgρ : t[n.1].gauge_id ≠ none := by
    have h1 : r2.gauge_id = t[n.1].gauge_id := by
      rw [← strip_gauge_id r2, ← strip_gauge_id (t[n.1]), hstripe]
    rw [← h1]
    exact hg
  have htriple := ht (t[n.1]) (List.getElem_mem hilt) hgρ
  have huntouched := assign_by_distance_untouched t n.1 (t[n.1]) hn hρ
    (Or.inl (by rw [htriple.1]; simp))
  rw [hi] at huntouched
  injection huntouched with he
  rw [he]
  have h1 : r2.gauge_id = t[n.1].gauge_id := by
    rw [← strip_gauge_id r2, ← strip_gauge_id (t[n.1]), hstripe]
  exact ht (t[n.1]) (List.getElem_mem hilt) (h1 ▸ hg)

/-- Claim C4: after `assign_gauged`, every segment with a non-null
`gauge_id` has `assigned_model_id = model_id`, `assigned_gauge_id =
gauge_id`, and reason `gauged`; and — for a table with unique `model_id`s
(the data model invariant, a stage precondition per the spec's error
handling) — these three values are still in place after the propagation
stage (whenever it returns) and after the distance-fallback stage.
(The older `rbc.assign.gauged` stage has no `assigned_gauge_id` column: it
writes the gauge id into its single `assigned_id` column; the claim's
columns are those of the `saber` stage embedded here.) -/
theorem claim_C4 (df : Table) :
    (∀ r ∈ assign_gauged df, gaugedTriple r)
    ∧ ((mids df).Nodup →
       ∀ (fuel maxp : Nat) (out : Table),
         assign_propagation fuel (assign_gauged df) maxp = .ok out →
         (∀ r ∈ out, gaugedTriple r)
         ∧ (∀ r ∈ assign_by_distance out, gaugedTriple r)) := by
  refine ⟨assign_gauged_triple df, ?_⟩
  intro hn fuel maxp out h
  have hng : (mids (assign_gauged df)).Nodup := by
    rw [mids_assign_gauged]; exact hn
  have hout := assignPropGo_triple fuel (assign_gauged df) maxp _ _ out hng
    (assign_gauged_triple df) h
  have hnout : (mids out).Nodup := by
    rw [mids_eq_of_map_strip _ _ (map_strip_assign_propagation fuel (assign_gauged df) maxp out h),
      mids_assign_gauged]
    exact hn
  exact ⟨hout, abd_triple out hnout hout⟩

/-- Witness for C4 on the three-segment saber pipeline example. -/
theorem claim_C4_witness :
    (∀ r ∈ assign_gauged saberT, gaugedTriple r)
    ∧ (∀ r ∈ ([ { mkRow 1 2 1 with
                    fdc_cluster := some 1,
                    assigned_model_id := some 2, assigned_gauge_id := some 7,
                    reason := some "propagation-upstream-1" },
                 { mkRow 2 3 1 with
                    gauge_id := some 7, fdc_cluster := some 1, x := 1,
                    assigned_model_id := some 2, assigned_gauge_id := some 7,
                    reason := some "gauged" },
                 { mkRow 3 (-1) 1 with
                    fdc_cluster := some 1, x := 2,
                    assigned_model_id := some 2, assigned_gauge_id := some 7,
                    reason := some "propagation-downstream-1" } ] : Table), gaugedTriple r)
    ∧ (∀ r ∈ assign_by_distance
          ([ { mkRow 1 2 1 with
                 fdc_cluster := some 1,
                 assigned_model_id := some 2, assigned_gauge_id := some 7,
                 reason := some "propagation-upstream-1" },
              { mkRow 2 3 1 with
                 gauge_id := some 7, fdc_cluster := some 1, x := 1,
                 assigned_model_id := some 2, assigned_gauge_id := some 7,
                 reason := some "gauged" },
              { mkRow 3 (-1) 1 with
                 fdc_cluster := some 1, x := 2,
                 assigned_model_id := some 2, assigned_gauge_id := some 7,
                 reason := some "propagation-downstream-1" } ] : Table), gaugedTriple r) := by
  have h := claim_C4 saberT
  have h2 := h.2 (by decide) 32 5 _ rfl
  exact ⟨h.1, h2.1, h2.2⟩

/-! ## C10 and C8: the distance fallback's group discipline -/

theorem mem_availOf (df : Table) (c so : Int) (a : Row) (h : a ∈ availOf df c so) :
    a ∈ df ∧ a.fdc_cluster = some c ∧ a.stream_order = so ∧ a.assigned_model_id ≠ none := by
  unfold availOf at h
  have h1 := List.mem_filter.mp h
  have h2 := List.mem_filter.mp h1.1
  have h3 := List.mem_filter.mp h2.1
  exact ⟨h3.1, by simpa using h3.2, by simpa using h2.2, by simpa using h1.2⟩

/-- Claim C10: in a table with unique `model_id`s, the distance-fallback
stage leaves every row with a null fdc-cluster label entirely unchanged (in
place), and a null-labelled row can never serve as an available
nearest-neighbour candidate: every row of `availOf` carries the concrete
cluster label of its group, because group membership is equality with a
concrete cluster value, which a null label never satisfies. -/
theorem claim_C10 (df : Table) (hn : (mids df).Nodup) :
    (∀ (i : Nat) (ρ : Row), df[i]? = some ρ → ρ.fdc_cluster = none →
       (assign_by_distance df)[i]? = some ρ)
    ∧ (∀ (c so : Int) (a : Row), a ∈ availOf df c so → a.fdc_cluster = some c) :=
  ⟨fun i ρ hr hfdc => assign_by_distance_untouched df i ρ hn hr (Or.inr hfdc),
   fun c so a h => (mem_availOf df c so a h).2.1⟩

/-- Witness for C10 on the null-cluster example table. -/
theorem claim_C10_witness :
    (assign_by_distance nullClusterT)[0]? = some (mkRow 4 (-1) 1)
    ∧ ({ mkRow 2 (-1) 1 with
           fdc_cluster := some 1, x := 2,
           assigned_model_id := some 2, assigned_gauge_id := some 20,
           reason := some "gauged" } : Row).fdc_cluster = some 1 := by
  have h := claim_C10 nullClusterT (by decide)
  refine ⟨h.1 0 (mkRow 4 (-1) 1) (by decide) (by decide), ?_⟩
  exact h.2 1 1 _ (by decide)

theorem argminFirst_eq_none (f : Row → Int) : ∀ l : List Row,
    argminFirst f l = none ↔ l = [] := by
  intro l
  cases l with
  | nil => simp [argminFirst]
  | cons r rs =>
    simp only [argminFirst]
    constructor
    · intro h
      exfalso
      cases hm : argminFirst f rs with
      | none => rw [hm] at h; cases h
      | some m =>
        rw [hm] at h
        have h2 : (if f r ≤ f m then some r else some m) = none := h
        by_cases hc : f r ≤ f m
        · rw [if_pos hc] at h2; cases h2
        · rw [if_neg hc] at h2; cases h2
    · intro h; cases h

theorem argminFirst_spec (f : Row → Int) : ∀ (l : List Row) (b : Row),
    argminFirst f l = some b →
    ∃ l1 l2, l = l1 ++ b :: l2 ∧ (∀ a ∈ l1, f b < f a) ∧ (∀ a ∈ l, f b ≤ f a) := by
  intro l
  induction l with
  | nil => intro b h; cases h
  | cons r rs ih =>
    intro b h
    simp only [argminFirst] at h
    cases hm : argminFirst f rs with
    | none =>
      rw [hm] at h
      injection h with hb
      subst hb
      have hrs : rs = [] := (argminFirst_eq_none f rs).mp hm
      subst hrs
      exact ⟨[], [], rfl, by simp, by simp⟩
    | some m =>
      rw [hm] at h
      have h2 : (if f r ≤ f m then some r else some m) = some b := h
      obtain ⟨l1, l2, hsplit, hlt, hle⟩ := ih m hm
      by_cases hcmp : f r ≤ f m
      · rw [if_pos hcmp] at h2
        injection h2 with hb
        subst hb
        refine ⟨[], rs, rfl, by simp, ?_⟩
        intro a ha
        rcases List.mem_cons.mp ha with h1 | h1
        · rw [h1]
        · exact le_trans hcmp (hle a h1)
      · rw [if_neg hcmp] at h2
        injection h2 with hb
        subst hb
        refine ⟨r :: l1, l2, by rw [hsplit, List.cons_append], ?_, ?_⟩
        · intro a ha
          rcases List.mem_cons.mp ha with h1 | h1
          · rw [h1]; exact lt_of_not_le hcmp
          · exact hlt a h1
        · intro a ha
          rcases List.mem_cons.mp ha with h1 | h1
          · rw [h1]; exact le_of_lt (lt_of_not_le hcmp)
          · exact hle a h1

theorem argminFirst_mem (f : Row → Int) (l : List Row) (b : Row)
    (h : argminFirst f l = some b) : b ∈ l := by
  obtain ⟨l1, l2, hsplit, _, _⟩ := argminFirst_spec f l b h
  rw [hsplit]
  exact List.mem_append_right _ (List.mem_cons_self _ _)

theorem nodup_insertSorted (x : Int) : ∀ l : List Int,
    x ∉ l → l.Nodup → (insertSorted x l).Nodup := by
  intro l
  induction l with
  | nil => intro _ _; simp [insertSorted]
  | cons y ys ih =>
    intro hx hl
    simp only [insertSorted]
    split
    · exact List.nodup_cons.mpr ⟨hx, hl⟩
    · have hy := List.nodup_cons.mp hl
      refine List.nodup_cons.mpr ⟨?_, ih (fun h => hx (List.mem_cons_of_mem _ h)) hy.2⟩
      rw [mem_insertSorted]
      rintro (h1 | h1)
      · exact hx (h1 ▸ List.mem_cons_self _ _)
      · exact hy.1 h1

theorem nodup_insSort : ∀ l : List Int, l.Nodup → (insSort l).Nodup := by
  intro l
  induction l with
  | nil => intro _; simp [insSort]
  | cons x xs ih =>
    intro hl
    have h := List.nodup_cons.mp hl
    exact nodup_insertSorted x (insSort xs) (fun hm => h.1 ((mem_insSort x xs).mp hm)) (ih h.2)

theorem nodup_sortDedup (l : List Int) : (sortDedup l).Nodup :=
  nodup_insSort _ (List.nodup_dedup l)

theorem nodup_mids_filter (t : Table) (p : Row → Bool) (hn : (mids t).Nodup) :
    (mids (t.filter p)).Nodup := by
  unfold mids
  exact List.Nodup.sublist (List.Sublist.map _ (List.filter_sublist t)) hn

theorem filter_congr_pointwise (p : Row → Bool) : ∀ (l1 l2 : List Row),
    l1.length = l2.length →
    (∀ j (h1 : j < l1.length) (h2 : j < l2.length), p l1[j] = p l2[j]
      ∧ (p l1[j] = true → l1[j] = l2[j])) →
    l1.filter p = l2.filter p := by
  intro l1
  induction l1 with
  | nil =>
    intro l2 hlen _
    cases l2 with
    | nil => rfl
    | cons b bs => cases hlen
  | cons a as ih =>
    intro l2 hlen hsel
    cases l2 with
    | nil => cases hlen
    | cons b bs =>
      have h0 := hsel 0 (by simp) (by simp)
      simp only [List.getElem_cons_zero] at h0
      have htail : as.filter p = bs.filter p := by
        apply ih bs (by simpa using hlen)
        intro j hj1 hj2
        have := hsel (j + 1) (by simpa using Nat.succ_lt_succ hj1)
          (by simpa using Nat.succ_lt_succ hj2)
        simpa using this
      simp only [List.filter_cons]
      cases hpa : p a with
      | false =>
        have hpb : p b = false := by rw [← h0.1, hpa]
        rw [hpb]
        simpa using htail
      | true =>
        have hpb : p b = true := by rw [← h0.1, hpa]
        have hab : a = b := h0.2 hpa
        rw [hpb, hab, htail]

theorem isEmpty_false_of_ne_nil {α : Type} (l : List α) (h : l ≠ []) :
    l.isEmpty = false := by
  cases l with
  | nil => exact absurd rfl h
  | cons a as => rfl

theorem assignForId_hit (c : Int) (c_so_sub avail : List Row) (df : Table) (i : Nat)
    (ρ b : Row)
    (hr : df[i]? = some ρ)
    (hsubj : (c_so_sub.filter (fun r => r.model_id = ρ.model_id)).head? = some ρ)
    (hmin : argminFirst (fun a => sqDist a ρ) avail = some b) :
    (assignForId c c_so_sub avail df ρ.model_id)[i]? = some (distWrite c b ρ) := by
  simp only [assignForId, hsubj, hmin]
  rw [getElem?_updRows, hr]
  simp

theorem assignForIds_hit (c : Int) (c_so_sub avail : List Row) :
    ∀ (ids : List Int) (df : Table) (i : Nat) (ρ b : Row),
      ids.Nodup → ρ.model_id ∈ ids → df[i]? = some ρ →
      (c_so_sub.filter (fun r => r.model_id = ρ.model_id)).head? = some ρ →
      argminFirst (fun a => sqDist a ρ) avail = some b →
      (assignForIds c c_so_sub avail ids df)[i]? = some (distWrite c b ρ) := by
  intro ids
  induction ids with
  | nil => intro df i ρ b _ hmem _ _ _; cases hmem
  | cons id rest ih =>
    intro df i ρ b hnd hmem hr hsubj hmin
    simp only [assignForIds]
    by_cases hid : id = ρ.model_id
    · subst hid
      apply assignForIds_miss c c_so_sub avail rest _ i (distWrite c b ρ)
        (assignForId_hit c c_so_sub avail df i ρ b hr hsubj hmin)
      show (distWrite c b ρ).model_id ∉ rest
      exact (List.nodup_cons.mp hnd).1
    · have hmem2 : ρ.model_id ∈ rest := by
        rcases List.mem_cons.mp hmem with h1 | h1
        · exact absurd h1.symm hid
        · exact h1
      exact ih _ i ρ b (List.nodup_cons.mp hnd).2 hmem2
        (assignForId_miss c c_so_sub avail df id i ρ hr (fun hc => hid hc.symm)) hsubj hmin

theorem assignGroupSO_missIds (c so : Int) (csub : List Row) (df : Table)
    (i : Nat) (ρ : Row) (hr : df[i]? = some ρ)
    (hni : ρ.model_id ∉ ((csub.filter (fun r => r.stream_order = so)).filter
        (fun r => r.assigned_model_id = none)).map (fun r => r.model_id)) :
    (assignGroupSO c so csub df)[i]? = some ρ := by
  simp only [assignGroupSO]
  split
  · exact hr
  · exact assignForIds_miss c _ _ _ df i ρ hr hni

theorem assignGroupSO_hit (c so : Int) (csub : List Row) (df : Table) (i : Nat) (ρ b : Row)
    (hr : df[i]? = some ρ)
    (hncs : (mids csub).Nodup)
    (hρcs : ρ ∈ csub) (hρso : ρ.stream_order = so) (hρun : ρ.assigned_model_id = none)
    (hmin : argminFirst (fun a => sqDist a ρ)
        ((csub.filter (fun r => r.stream_order = so)).filter
          (fun r => r.assigned_model_id ≠ none)) = some b) :
    (assignGroupSO c so csub df)[i]? = some (distWrite c b ρ) := by
  have hρcso : ρ ∈ csub.filter (fun r => r.stream_order = so) :=
    List.mem_filter.mpr ⟨hρcs, by simp [hρso]⟩
  have hncso : (mids (csub.filter (fun r => r.stream_order = so))).Nodup :=
    nodup_mids_filter csub _ hncs
  have hsubj : ((csub.filter (fun r => r.stream_order = so)).filter
      (fun r => r.model_id = ρ.model_id)).head? = some ρ := by
    rw [filter_mid_of_nodup _ ρ hncso hρcso]
    rfl
  have hρunassigned : ρ ∈ (csub.filter (fun r => r.stream_order = so)).filter
      (fun r => r.assigned_model_id = none) :=
    List.mem_filter.mpr ⟨hρcso, by simp [hρun]⟩
  have hmemids : ρ.model_id ∈ ((csub.filter (fun r => r.stream_order = so)).filter
      (fun r => r.assigned_model_id = none)).map (fun r => r.model_id) :=
    List.mem_map.mpr ⟨ρ, hρunassigned, rfl⟩
  have hidsnodup : (((csub.filter (fun r => r.stream_order = so)).filter
      (fun r => r.assigned_model_id = none)).map (fun r => r.model_id)).Nodup :=
    nodup_mids_filter _ _ hncso
  have havail_ne : (csub.filter (fun r => r.stream_order = so)).filter
      (fun r => r.assigned_model_id ≠ none) ≠ [] := by
    intro he
    rw [he] at hmin
    cases hmin
  simp only [assignGroupSO]
  rw [if_neg ?gate]
  case gate =>
    rw [isEmpty_false_of_ne_nil _ (List.ne_nil_of_mem hmemids),
      isEmpty_false_of_ne_nil _ havail_ne]
    simp
  exact assignForIds_hit c _ _ _ df i ρ b hidsnodup hmemids hr hsubj hmin

theorem soLoop_missIds (c : Int) (csub : List Row) :
    ∀ (sos : List Int) (df : Table) (i : Nat) (ρ : Row),
      df[i]? = some ρ →
      (∀ so ∈ sos, ρ.model_id ∉ ((csub.filter (fun r => r.stream_order = so)).filter
          (fun r => r.assigned_model_id = none)).map (fun r => r.model_id)) →
      (soLoop c csub sos df)[i]? = some ρ := by
  intro sos
  induction sos with
  | nil => intro df i ρ hr _; exact hr
  | cons so rest ih =>
    intro df i ρ hr hni
    simp only [soLoop]
    exact ih _ i ρ
      (assignGroupSO_missIds c so csub df i ρ hr (hni so (List.mem_cons_self _ _)))
      (fun so2 h2 => hni so2 (List.mem_cons_of_mem _ h2))

theorem soLoop_hit (c : Int) (csub : List Row) :
    ∀ (sos : List Int) (df : Table) (i : Nat) (ρ b : Row),
      sos.Nodup → ρ.stream_order ∈ sos →
      (mids csub).Nodup → ρ ∈ csub → ρ.assigned_model_id = none →
      df[i]? = some ρ →
      argminFirst (fun a => sqDist a ρ)
        ((csub.filter (fun r => r.stream_order = ρ.stream_order)).filter
          (fun r => r.assigned_model_id ≠ none)) = some b →
      (soLoop c csub sos df)[i]? = some (distWrite c b ρ) := by
  intro sos
  induction sos with
  | nil => intro df i ρ b _ hmem _ _ _ _ _; cases hmem
  | cons so rest ih =>
    intro df i ρ b hnd hmem hncs hρcs hρun hr hmin
    simp only [soLoop]
    by_cases hso : so = ρ.stream_order
    · subst hso
      apply soLoop_missIds c csub rest _ i (distWrite c b ρ)
        (assignGroupSO_hit c ρ.stream_order csub df i ρ b hr hncs hρcs rfl hρun hmin)
      intro so2 hso2 hmemids
      obtain ⟨σ, hσmem, hσmid⟩ := List.mem_map.mp hmemids
      have h1 := List.mem_filter.mp hσmem
      have h2 := List.mem_filter.mp h1.1
      have hσρ : σ = ρ := nodup_mid_inj csub hncs σ ρ h2.1 hρcs (by exact hσmid)
      subst hσρ
      have : σ.stream_order = so2 := by simpa using h2.2
      rw [this] at hnd
      exact (List.nodup_cons.mp hnd).1 hso2
    · have hmiss : (assignGroupSO c so csub df)[i]? = some ρ := by
        apply assignGroupSO_missIds c so csub df i ρ hr
        intro hmemids
        obtain ⟨σ, hσmem, hσmid⟩ := List.mem_map.mp hmemids
        have h1 := List.mem_filter.mp hσmem
        have h2 := List.mem_filter.mp h1.1
        have hσρ : σ = ρ := nodup_mid_inj csub hncs σ ρ h2.1 hρcs hσmid
        subst hσρ
        have : σ.stream_order = so := by simpa using h2.2
        exact hso this.symm
      have hmem2 : ρ.stream_order ∈ rest := by
        rcases List.mem_cons.mp hmem with h1 | h1
        · exact absurd h1.symm hso
        · exact h1
      exact ih _ i ρ b (List.nodup_cons.mp hnd).2 hmem2 hncs hρcs hρun hmiss hmin

theorem strip_getElem_eq (df acc : Table) (hframe : acc.map strip = df.map strip)
    (j : Nat) (h1 : j < acc.length) (h2 : j < df.length) :
    strip acc[j] = strip df[j] := by
  have := getElem?_strip_of_map_strip df acc hframe j
  rw [List.getElem?_eq_getElem h1, List.getElem?_eq_getElem h2] at this
  simpa using this

theorem clusterLoop_hit :
    ∀ (cs : List Int) (acc df : Table) (i : Nat) (ρ b : Row) (c : Int),
      cs.Nodup → c ∈ cs →
      (mids df).Nodup →
      df[i]? = some ρ → ρ.fdc_cluster = some c → ρ.assigned_model_id = none →
      argminFirst (fun a => sqDist a ρ) (availOf df c ρ.stream_order) = some b →
      acc.map strip = df.map strip →
      (∀ (j : Nat) (σ : Row), df[j]? = some σ → σ.fdc_cluster = some c → acc[j]? = some σ) →
      (clusterLoop cs acc)[i]? = some (distWrite c b ρ) := by
  intro cs
  induction cs with
  | nil => intro acc df i ρ b c _ hmem _ _ _ _ _ _ _; cases hmem
  | cons c2 rest ih =>
    intro acc df i ρ b c hnd hmem hndf hr hfdc hun hmin hframe hinv
    have hnacc : (mids acc).Nodup := by
      rw [mids_eq_of_map_strip _ _ hframe]; exact hndf
    have hlen : acc.length = df.length := length_eq_of_map_strip df acc hframe
    have hρdf : ρ ∈ df := mem_of_getElem? hr
    simp only [clusterLoop]
    by_cases hc : c2 = c
    · subst hc
      have hcsub : acc.filter (fun r => r.fdc_cluster = some c2) =
          df.filter (fun r => r.fdc_cluster = some c2) := by
        apply filter_congr_pointwise _ acc df hlen
        intro j h1 h2
        have hstripj := strip_getElem_eq df acc hframe j h1 h2
        have hfdcj : acc[j].fdc_cluster = df[j].fdc_cluster := by
          rw [← strip_fdc acc[j], ← strip_fdc df[j], hstripj]
        constructor
        · simp [hfdcj]
        · intro hp
          have hfc : acc[j].fdc_cluster = some c2 := by simpa using hp
          have := hinv j df[j] (List.getElem?_eq_getElem h2) (by rw [← hfdcj]; exact hfc)
          rw [List.getElem?_eq_getElem h1] at this
          simpa using this
      have hacc_i : acc[i]? = some ρ := hinv i ρ hr hfdc
      rw [hcsub]
      have hρcsub : ρ ∈ df.filter (fun r => r.fdc_cluster = some c2) :=
        List.mem_filter.mpr ⟨hρdf, by simp [hfdc]⟩
      have hsoloop := soLoop_hit c2 (df.filter (fun r => r.fdc_cluster = some c2))
        (orderValues (df.filter (fun r => r.fdc_cluster = some c2))) acc i ρ b
        (nodup_sortDedup _)
        ((mem_sortDedup _ _).mpr (List.mem_map.mpr ⟨ρ, hρcsub, rfl⟩))
        (nodup_mids_filter df _ hndf) hρcsub hun hacc_i hmin
      have hbassigned : (distWrite c2 b ρ).assigned_model_id ≠ none := by
        show b.assigned_model_id ≠ none
        exact (mem_availOf df c2 ρ.stream_order b (argminFirst_mem _ _ _ hmin)).2.2.2
      have hnsoloop : (mids (soLoop c2 (df.filter (fun r => r.fdc_cluster = some c2))
          (orderValues (df.filter (fun r => r.fdc_cluster = some c2))) acc)).Nodup := by
        rw [mids_eq_of_map_strip _ _ (map_strip_soLoop _ _ _ acc)]
        exact hnacc
      exact clusterLoop_untouched rest _ i (distWrite c2 b ρ) hnsoloop hsoloop
        (Or.inl hbassigned)
    · have hmiss : ∀ (j : Nat) (σ : Row), acc[j]? = some σ → σ.fdc_cluster = some c →
          (soLoop c2 (acc.filter (fun r => r.fdc_cluster = some c2))
            (orderValues (acc.filter (fun r => r.fdc_cluster = some c2))) acc)[j]? = some σ := by
        intro j σ hj hσc
        apply soLoop_miss c2 _ _ acc j σ hj
        intro hmemids
        obtain ⟨τ, hτmem, hτmid⟩ := List.mem_map.mp hmemids
        have h1 := List.mem_filter.mp hτmem
        have h2 := List.mem_filter.mp h1.1
        have hτσ : τ = σ := nodup_mid_inj acc hnacc τ σ h2.1 (mem_of_getElem? hj) hτmid
        subst hτσ
        have : τ.fdc_cluster = some c2 := by simpa using h2.2
        rw [hσc] at this
        injection this with he
        exact hc he.symm
      have hframe2 : (soLoop c2 (acc.filter (fun r => r.fdc_cluster = some c2))
          (orderValues (acc.filter (fun r => r.fdc_cluster = some c2))) acc).map strip =
          df.map strip := by
        rw [map_strip_soLoop]
        exact hframe
      have hmem2 : c ∈ rest := by
        rcases List.mem_cons.mp hmem with h1 | h1
        · exact absurd h1.symm hc
        · exact h1
      exact ih _ df i ρ b c (List.nodup_cons.mp hnd).2 hmem2 hndf hr hfdc hun hmin hframe2
        (fun j σ hj hσc => hmiss j σ (hinv j σ hj hσc) hσc)

theorem assignGroupSO_skip (c so : Int) (csub : List Row) (df : Table) (i : Nat) (ρ : Row)
    (hr : df[i]? = some ρ)
    (he : (csub.filter (fun r => r.stream_order = so)).filter
        (fun r => r.assigned_model_id ≠ none) = []) :
    (assignGroupSO c so csub df)[i]? = some ρ := by
  simp only [assignGroupSO, he]
  rw [if_pos (by simp)]
  exact hr

theorem soLoop_skip (c : Int) (csub : List Row) :
    ∀ (sos : List Int) (df : Table) (i : Nat) (ρ : Row),
      (mids csub).Nodup → ρ ∈ csub → df[i]? = some ρ →
      (csub.filter (fun r => r.stream_order = ρ.stream_order)).filter
        (fun r => r.assigned_model_id ≠ none) = [] →
      (soLoop c csub sos df)[i]? = some ρ := by
  intro sos
  induction sos with
  | nil => intro df i ρ _ _ hr _; exact hr
  | cons so rest ih =>
    intro df i ρ hncs hρcs hr he
    simp only [soLoop]
    by_cases hso : so = ρ.stream_order
    · subst hso
      exact ih _ i ρ hncs hρcs (assignGroupSO_skip c ρ.stream_order csub df i ρ hr he) he
    · have hmiss : (assignGroupSO c so csub df)[i]? = some ρ := by
        apply assignGroupSO_missIds c so csub df i ρ hr
        intro hmemids
        obtain ⟨σ, hσmem, hσmid⟩ := List.mem_map.mp hmemids
        have h1 := List.mem_filter.mp hσmem
        have h2 := List.mem_filter.mp h1.1
        have hσρ : σ = ρ := nodup_mid_inj csub hncs σ ρ h2.1 hρcs hσmid
        subst hσρ
        have : σ.stream_order = so := by simpa using h2.2
        exact hso this.symm
      exact ih _ i ρ hncs hρcs hmiss he

theorem clusterLoop_missCluster (c : Int) :
    ∀ (cs : List Int) (acc : Table) (i : Nat) (row : Row),
      (mids acc).Nodup → acc[i]? = some row → row.fdc_cluster = some c → c ∉ cs →
      (clusterLoop cs acc)[i]? = some row := by
  intro cs
  induction cs with
  | nil => intro acc i row _ hr _ _; exact hr
  | cons c2 rest ih =>
    intro acc i row hnacc hr hfdc hnmem
    simp only [clusterLoop]
    have hc2 : c2 ≠ c := fun he => hnmem (he ▸ List.mem_cons_self _ _)
    have hmiss : (soLoop c2 (acc.filter (fun r => r.fdc_cluster = some c2))
        (orderValues (acc.filter (fun r => r.fdc_cluster = some c2))) acc)[i]? = some row := by
      apply soLoop_miss c2 _ _ acc i row hr
      intro hmemids
      obtain ⟨τ, hτmem, hτmid⟩ := List.mem_map.mp hmemids
      have h1 := List.mem_filter.mp hτmem
      have h2 := List.mem_filter.mp h1.1
      have hτrow : τ = row := nodup_mid_inj acc hnacc τ row h2.1 (mem_of_getElem? hr) hτmid
      subst hτrow
      have : τ.fdc_cluster = some c2 := by simpa using h2.2
      rw [hfdc] at this
      injection this with he
      exact hc2 he.symm
    have hnacc2 : (mids (soLoop c2 (acc.filter (fun r => r.fdc_cluster = some c2))
        (orderValues (acc.filter (fun r => r.fdc_cluster = some c2))) acc)).Nodup := by
      rw [mids_eq_of_map_strip _ _ (map_strip_soLoop _ _ _ acc)]
      exact hnacc
    exact ih _ i row hnacc2 hmiss hfdc (fun hm => hnmem (List.mem_cons_of_mem _ hm))

theorem clusterLoop_skip :
    ∀ (cs : List Int) (acc df : Table) (i : Nat) (ρ : Row) (c : Int),
      cs.Nodup →
      (mids df).Nodup →
      df[i]? = some ρ → ρ.fdc_cluster = some c → ρ.assigned_model_id = none →
      availOf df c ρ.stream_order = [] →
      acc.map strip = df.map strip →
      (∀ (j : Nat) (σ : Row), df[j]? = some σ → σ.fdc_cluster = some c → acc[j]? = some σ) →
      (clusterLoop cs acc)[i]? = some ρ := by
  intro cs
  induction cs with
  | nil =>
    intro acc df i ρ c _ _ hr hfdc _ _ _ hinv
    exact hinv i ρ hr hfdc
  | cons c2 rest ih =>
    intro acc df i ρ c hnd hndf hr hfdc hun he hframe hinv
    have hnacc : (mids acc).Nodup := by
      rw [mids_eq_of_map_strip _ _ hframe]; exact hndf
    have hlen : acc.length = df.length := length_eq_of_map_strip df acc hframe
    have hρdf : ρ ∈ df := mem_of_getElem? hr
    simp only [clusterLoop]
    by_cases hc : c2 = c
    · subst hc
      have hcsub : acc.filter (fun r => r.fdc_cluster = some c2) =
          df.filter (fun r => r.fdc_cluster = some c2) := by
        apply filter_congr_pointwise _ acc df hlen
        intro j h1 h2
        have hstripj := strip_getElem_eq df acc hframe j h1 h2
        have hfdcj : acc[j].fdc_cluster = df[j].fdc_cluster := by
          rw [← strip_fdc acc[j], ← strip_fdc df[j], hstripj]
        constructor
        · simp [hfdcj]
        · intro hp
          have hfc : acc[j].fdc_cluster = some c2 := by simpa using hp
          have := hinv j df[j] (List.getElem?_eq_getElem h2) (by rw [← hfdcj]; exact hfc)
          rw [List.getElem?_eq_getElem h1] at this
          simpa using this
      have hacc_i : acc[i]? = some ρ := hinv i ρ hr hfdc
      rw [hcsub]
      have hρcsub : ρ ∈ df.filter (fun r => r.fdc_cluster = some c2) :=
        List.mem_filter.mpr ⟨hρdf, by simp [hfdc]⟩
      have hsoloop := soLoop_skip c2 (df.filter (fun r => r.fdc_cluster = some c2))
        (orderValues (df.filter (fun r => r.fdc_cluster = some c2))) acc i ρ
        (nodup_mids_filter df _ hndf) hρcsub hacc_i he
      have hnsoloop : (mids (soLoop c2 (df.filter (fun r => r.fdc_cluster = some c2))
          (orderValues (df.filter (fun r => r.fdc_cluster = some c2))) acc)).Nodup := by
        rw [mids_eq_of_map_strip _ _ (map_strip_soLoop _ _ _ acc)]
        exact hnacc
      exact clusterLoop_missCluster c2 rest _ i ρ hnsoloop hsoloop hfdc
        (List.nodup_cons.mp hnd).1
    · have hmiss : ∀ (j : Nat) (σ : Row), acc[j]? = some σ → σ.fdc_cluster = some c →
          (soLoop c2 (acc.filter (fun r => r.fdc_cluster = some c2))
            (orderValues (acc.filter (fun r => r.fdc_cluster = some c2))) acc)[j]? = some σ := by
        intro j σ hj hσc
        apply soLoop_miss c2 _ _ acc j σ hj
        intro hmemids
        obtain ⟨τ, hτmem, hτmid⟩ := List.mem_map.mp hmemids
        have h1 := List.mem_filter.mp hτmem
        have h2 := List.mem_filter.mp h1.1
        have hτσ : τ = σ := nodup_mid_inj acc hnacc τ σ h2.1 (mem_of_getElem? hj) hτmid
        subst hτσ
        have : τ.fdc_cluster = some c2 := by simpa using h2.2
        rw [hσc] at this
        injection this with he2
        exact hc he2.symm
      have hframe2 : (soLoop c2 (acc.filter (fun r => r.fdc_cluster = some c2))
          (orderValues (acc.filter (fun r => r.fdc_cluster = some c2))) acc).map strip =
          df.map strip := by
        rw [map_strip_soLoop]
        exact hframe
      exact ih _ df i ρ c (List.nodup_cons.mp hnd).2 hndf hr hfdc hun he hframe2
        (fun j σ hj hσc => hmiss j σ (hinv j σ hj hσc) hσc)

/-- Claim C8: in a table with unique `model_id`s, every unassigned segment
whose `(fdc_cluster, stream_order)` group has at least one available
(already-assigned) segment receives, in place, the `assigned_model_id` and
`assigned_gauge_id` of the available group member at minimum planar Euclidean
distance — ties broken by first occurrence in original table order (the
returned minimiser occurs in the group's list after only strictly-farther
rows, and weakly minimises the squared distance) — with reason
`cluster-<cluster>-dist`; and no row's assignment ever comes from a group
with a different `fdc_cluster` or `stream_order`: any row the stage changes
received the assignment columns of a table row of its own cluster and
order. -/
theorem claim_C8 (df : Table) (hn : (mids df).Nodup) :
    (∀ (i : Nat) (ρ b : Row) (c : Int),
       df[i]? = some ρ → ρ.assigned_model_id = none → ρ.fdc_cluster = some c →
       argminFirst (fun a => sqDist a ρ) (availOf df c ρ.stream_order) = some b →
       (assign_by_distance df)[i]? = some (distWrite c b ρ)
       ∧ b ∈ availOf df c ρ.stream_order
       ∧ (∀ a ∈ availOf df c ρ.stream_order, sqDist b ρ ≤ sqDist a ρ)
       ∧ ∃ l1 l2, availOf df c ρ.stream_order = l1 ++ b :: l2
           ∧ ∀ a ∈ l1, sqDist b ρ < sqDist a ρ)
    ∧ (∀ (i : Nat) (hi : i < df.length) (hi2 : i < (assign_by_distance df).length),
       (assign_by_distance df)[i] ≠ df[i] →
       ∃ a ∈ df, a.fdc_cluster = df[i].fdc_cluster ∧ a.stream_order = df[i].stream_order
         ∧ (assign_by_distance df)[i].assigned_model_id = a.assigned_model_id
         ∧ (assign_by_distance df)[i].assigned_gauge_id = a.assigned_gauge_id) := by
  constructor
  · intro i ρ b c hr hun hfdc hmin
    have hcmem : c ∈ clusterValues df :=
      (mem_sortDedup c _).mpr (List.mem_filterMap.mpr ⟨ρ, mem_of_getElem? hr, hfdc⟩)
    have hhit : (assign_by_distance df)[i]? = some (distWrite c b ρ) :=
      clusterLoop_hit (clusterValues df) df df i ρ b c (nodup_sortDedup _)
        hcmem hn hr hfdc hun hmin rfl (fun j σ hj _ => hj)
    obtain ⟨l1, l2, hsplit, hlt, hle⟩ := argminFirst_spec _ _ _ hmin
    exact ⟨hhit, argminFirst_mem _ _ _ hmin, hle, l1, l2, hsplit, hlt⟩
  · intro i hi hi2 hne
    have hr : df[i]? = some df[i] := List.getElem?_eq_getElem hi
    by_cases hP : df[i].assigned_model_id ≠ none ∨ df[i].fdc_cluster = none
    · exfalso
      have h2 := assign_by_distance_untouched df i (df[i]) hn hr hP
      rw [List.getElem?_eq_getElem hi2] at h2
      injection h2 with h3
      exact hne h3
    · push_neg at hP
      obtain ⟨hun, hfdcne⟩ := hP
      obtain ⟨c, hfdc⟩ := Option.ne_none_iff_exists'.mp hfdcne
      cases hm : argminFirst (fun a => sqDist a (df[i])) (availOf df c (df[i]).stream_order) with
      | none =>
        exfalso
        have he := (argminFirst_eq_none _ _).mp hm
        have h2 : (assign_by_distance df)[i]? = some (df[i]) :=
          clusterLoop_skip (clusterValues df) df df i (df[i]) c (nodup_sortDedup _)
            hn hr hfdc hun he rfl (fun j σ hj _ => hj)
        rw [List.getElem?_eq_getElem hi2] at h2
        injection h2 with h3
        exact hne h3
      | some b =>
        have hcmem : c ∈ clusterValues df :=
          (mem_sortDedup c _).mpr (List.mem_filterMap.mpr ⟨df[i], List.getElem_mem hi, hfdc⟩)
        have hhit : (assign_by_distance df)[i]? = some (distWrite c b (df[i])) :=
          clusterLoop_hit (clusterValues df) df df i (df[i]) b c (nodup_sortDedup _)
            hcmem hn hr hfdc hun hm rfl (fun j σ hj _ => hj)
        rw [List.getElem?_eq_getElem hi2] at hhit
        injection hhit with hrow
        have hb := mem_availOf df c (df[i]).stream_order b (argminFirst_mem _ _ _ hm)
        refine ⟨b, hb.1, ?_, hb.2.2.1, ?_, ?_⟩
        · rw [hb.2.1, hfdc]
        · rw [hrow]; rfl
        · rw [hrow]; rfl

/-- Witness for C8 on Scenario C: the unassigned segment at (0,0) receives
the assignment of the available segment at (2,0) (distance 2 beats 5),
tagged `cluster-1-dist`. -/
theorem claim_C8_witness :
    (assign_by_distance distT)[0]? =
      some (distWrite 1
        { mkRow 2 (-1) 1 with
            fdc_cluster := some 1, x := 2,
            assigned_model_id := some 2, assigned_gauge_id := some 20,
            reason := some "gauged" }
        { mkRow 1 (-1) 1 with fdc_cluster := some 1 })
    ∧ ({ mkRow 2 (-1) 1 with
           fdc_cluster := some 1, x := 2,
           assigned_model_id := some 2, assigned_gauge_id := some 20,
           reason := some "gauged" } : Row) ∈ availOf distT 1 1
    ∧ (∀ a ∈ availOf distT 1 1,
        sqDist { mkRow 2 (-1) 1 with
                   fdc_cluster := some 1, x := 2,
                   assigned_model_id := some 2, assigned_gauge_id := some 20,
                   reason := some "gauged" }
          { mkRow 1 (-1) 1 with fdc_cluster := some 1 }
        ≤ sqDist a { mkRow 1 (-1) 1 with fdc_cluster := some 1 }) := by
  have h := (claim_C8 distT (by decide)).1 0
    { mkRow 1 (-1) 1 with fdc_cluster := some 1 }
    { mkRow 2 (-1) 1 with
        fdc_cluster := some 1, x := 2,
        assigned_model_id := some 2, assigned_gauge_id := some 20,
        reason := some "gauged" }
    1 (by decide) (by decide) (by decide) (by decide)
  exact ⟨h.1, h.2.1, h.2.2.1⟩
